import Mathlib

/-!
Verification of the docker credential-config core (pkg/docker/config/config.go).

Go strings are byte sequences; we embed them as `List Nat` (each element a byte).
Go maps are embedded as association lists wrapped in `Option`, where `none`
models a Go nil map and `some l` a non-nil map with entries `l` (Go map
iteration order is unspecified; the association-list order stands in for it,
and no settled property depends on that order).
External collaborators (credential-helper subprocesses, the filesystem, the
environment, sysregistriesv2.CredentialHelpers) are passed in as explicit
parameters, mirroring the points where config.go calls out of the package.
-/

set_option autoImplicit false

namespace ImageConfig

/-- A Go string: a sequence of bytes. -/
abbrev GoStr := List Nat

/-- Embed a Lean string literal as a Go byte string (all literals used here are ASCII). -/
def str (s : String) : GoStr := s.data.map Char.toNat

/-- strings.HasPrefix. -/
def goStartsWith (s p : GoStr) : Bool := p.isPrefixOf s

/-- strings.TrimPrefix. -/
def goTrimPrefixOf (s p : GoStr) : GoStr := if p.isPrefixOf s then s.drop p.length else s

/-- strings.ContainsRune for a single-byte rune. -/
def containsB (s : GoStr) (b : Nat) : Bool := s.any (fun c => c = b)

/-- strings.IndexRune for a single-byte rune: index of the first occurrence. -/
def indexOfB : GoStr → Nat → Option Nat
  | [], _ => none
  | c :: rest, b => if c = b then some 0 else (indexOfB rest b).map (· + 1)

/-- strings.LastIndex for a single-byte separator: index of the last occurrence. -/
def lastIndexOfB : GoStr → Nat → Option Nat
  | [], _ => none
  | c :: rest, b =>
    match lastIndexOfB rest b with
    | some i => some (i + 1)
    | none => if c = b then some 0 else none

/-- strings.Cut at a single-byte separator: (before, after, found). -/
def cutB (s : GoStr) (b : Nat) : GoStr × GoStr × Bool :=
  match indexOfB s b with
  | some i => (s.take i, s.drop (i + 1), true)
  | none => (s, [], false)

/-- strings.Trim with a single-byte cutset: removes leading and trailing occurrences. -/
def trimB (s : GoStr) (b : Nat) : GoStr :=
  ((s.dropWhile (fun c => c = b)).reverse.dropWhile (fun c => c = b)).reverse

/-- Decimal digits of a natural number, most significant first (fuel-based). -/
def natDigitsAux : Nat → Nat → GoStr
  | 0, _ => []
  | f + 1, n => if n < 10 then [48 + n] else natDigitsAux f (n / 10) ++ [48 + n % 10]

/-- fmt.Sprintf of a nonnegative integer with verb d. -/
def natStr (n : Nat) : GoStr := natDigitsAux (n + 1) n

/-- Models path/filepath.Join for the already-clean inputs used in config.go:
concatenation with a single slash separator, collapsing leading slashes of the
second component. -/
def goJoin (a b : GoStr) : GoStr := a ++ 47 :: b.dropWhile (fun c => c = 47)

/-! ### base64 (encoding/base64, StdEncoding) -/

/-- The standard base64 alphabet, as a function from a sextet to its ASCII code. -/
def b64char (s : Nat) : Nat :=
  if s < 26 then 65 + s
  else if s < 52 then 97 + (s - 26)
  else if s < 62 then 48 + (s - 52)
  else if s = 62 then 43
  else 47

/-- Inverse of the standard base64 alphabet; `none` for bytes outside it. -/
def b64val (c : Nat) : Option Nat :=
  if 65 ≤ c ∧ c ≤ 90 then some (c - 65)
  else if 97 ≤ c ∧ c ≤ 122 then some (c - 97 + 26)
  else if 48 ≤ c ∧ c ≤ 57 then some (c - 48 + 52)
  else if c = 43 then some 62
  else if c = 47 then some 63
  else none

/-- base64.StdEncoding.EncodeToString: 3-byte groups to 4 alphabet bytes, with
padding bytes 61 (the equals sign) for a final 1- or 2-byte group. -/
def b64encode : List Nat → List Nat
  | [] => []
  | [b] => [b64char (b / 4), b64char (b % 4 * 16), 61, 61]
  | [b, c] => [b64char (b / 4), b64char (b % 4 * 16 + c / 16), b64char (c % 16 * 4), 61]
  | b :: c :: d :: rest =>
    b64char (b / 4) :: b64char (b % 4 * 16 + c / 16) ::
      b64char (c % 16 * 4 + d / 64) :: b64char (d % 64) :: b64encode rest

/-- base64.StdEncoding.DecodeString: decodes 4-byte quanta; padding is accepted
only in the final quantum; any byte outside the alphabet (other than valid
padding) is an error, modelled as `none`. -/
def b64decode : List Nat → Option (List Nat)
  | [] => some []
  | c1 :: c2 :: c3 :: c4 :: rest => do
    let s1 ← b64val c1
    let s2 ← b64val c2
    if c3 = 61 then
      if c4 = 61 ∧ rest = [] then some [s1 * 4 + s2 / 16] else none
    else do
      let s3 ← b64val c3
      if c4 = 61 then
        if rest = [] then some [s1 * 4 + s2 / 16, s2 % 16 * 16 + s3 / 4] else none
      else do
        let s4 ← b64val c4
        let tail ← b64decode rest
        some ((s1 * 4 + s2 / 16) :: (s2 % 16 * 16 + s3 / 4) :: (s3 % 4 * 64 + s4) :: tail)
  | _ => none

/-! ### Data model -/

/-- types.DockerAuthConfig. -/
structure DockerAuthConfig where
  username : GoStr
  password : GoStr
  identityToken : GoStr
  deriving DecidableEq, Repr

/-- The zero value types.DockerAuthConfig, compared against with Go inequality. -/
def emptyDockerAuthConfig : DockerAuthConfig := ⟨[], [], []⟩

/-- dockerAuthConfig: one entry of the auths map of an auth file. -/
structure dockerAuthConfig where
  auth : GoStr
  identityToken : GoStr
  deriving DecidableEq, Repr

/-- A Go map with GoStr keys: `none` is the nil map. -/
abbrev GoMap (β : Type) := Option (List (GoStr × β))

/-- Lookup in an association list (first matching key). -/
def lookupA {β : Type} : List (GoStr × β) → GoStr → Option β
  | [], _ => none
  | (k, v) :: rest, key => if k = key then some v else lookupA rest key

/-- Go map read: reading a nil map yields no entry. -/
def mapGet {β : Type} (m : GoMap β) (k : GoStr) : Option β :=
  match m with
  | none => none
  | some l => lookupA l k

/-- Association-list update: replace the binding if present, else append. -/
def setA {β : Type} : List (GoStr × β) → GoStr → β → List (GoStr × β)
  | [], key, v => [(key, v)]
  | (k, w) :: rest, key, v =>
    if k = key then (k, v) :: rest else (k, w) :: setA rest key v

/-- Go map write on a non-nil map (config.go only writes to maps it has
initialized; writing to a nil map would panic in Go and never occurs in the
modelled paths). -/
def mapSet {β : Type} (m : GoMap β) (k : GoStr) (v : β) : GoMap β :=
  some (setA (m.getD []) k v)

/-- Go delete(m, k). -/
def mapDel {β : Type} (m : GoMap β) (k : GoStr) : GoMap β :=
  m.map (fun l => l.filter (fun kv => kv.1 ≠ k))

/-- dockerConfigFile: the parsed auth file. -/
structure dockerConfigFile where
  authConfigs : GoMap dockerAuthConfig
  credHelpers : GoMap GoStr
  deriving DecidableEq, Repr

/-- authPath: a path with its expected format. -/
structure authPath where
  path : GoStr
  legacyFormat : Bool
  deriving DecidableEq, Repr

/-- newAuthPathDefault. -/
def newAuthPathDefault (path : GoStr) : authPath := ⟨path, false⟩

/-- Error values produced by the modelled code paths.  Wrapping constructors
mirror the fmt.Errorf wrapping sites in config.go. -/
inductive Err where
  /-- validateKey: key contains an http or https scheme. -/
  | httpPrefixKey (key : GoStr)
  /-- validateKey: key contains an at sign. -/
  | atCharKey (key : GoStr)
  /-- validateKey: key contains a colon after the first slash. -/
  | colonAfterSlashKey (key : GoStr)
  /-- base64.CorruptInputError from DecodeString. -/
  | base64Corrupt (s : GoStr)
  /-- unsupportedNamespaceErr. -/
  | unsupportedNamespace (helper : GoStr)
  /-- json.Unmarshal failure, wrapped as unmarshaling JSON at path. -/
  | jsonUnmarshal (path : GoStr)
  /-- os.ReadFile failure other than not-exist. -/
  | ioRead (path : GoStr)
  /-- os.MkdirAll failure. -/
  | ioMkdir (path : GoStr)
  /-- ioutils.AtomicWriteFile failure, wrapped as writing to file. -/
  | ioWrite (path : GoStr)
  /-- An external credential helper failed with the given message. -/
  | helperFailed (helper : GoStr) (msg : GoStr)
  /-- getPathToAuthWithOS: XDG_RUNTIME_DIR is set but does not exist. -/
  | xdgRuntimeDirMissing (dir : GoStr)
  /-- modifyJSON: writes to a legacy-format path are not supported. -/
  | legacyWriteUnsupported (path : GoStr)
  /-- sysregistriesv2.CredentialHelpers failed (external collaborator). -/
  | credHelpersConfig
  /-- Wrapping: reading JSON file path. -/
  | readingJSONFile (path : GoStr) (e : Err)
  /-- Wrapping: updating path (modifyJSON editor error). -/
  | updating (path : GoStr) (e : Err)
  /-- Wrapping: removing credentials for key from credential helper. -/
  | removingCreds (key helper : GoStr) (msg : GoStr)
  /-- ErrNotLoggedIn. -/
  | notLoggedIn
  /-- A go-multierror accumulation. -/
  | multi (errs : List Err)

/-- The sentinel error message from docker-credential-helpers for a miss. -/
def errCredentialsNotFoundMsg : GoStr := str "credentials not found"

/-- The sentinel username denoting an identity token on the helper wire. -/
def tokenUsername : GoStr := str "<token>"

/-- sysregistriesv2.AuthenticationFileHelper: the sentinel helper name for the
built-in file backend (constant of the containers sysregistriesv2 package). -/
def authenticationFileHelper : GoStr := str "containers-auth.json"

/-! ### Key validation, candidate keys, normalization -/

/-- validateKey: rejects scheme prefixes, at signs, and colons after the first
slash; on success reports whether the key is namespaced (contains a slash). -/
def validateKey (key : GoStr) : Except Err Bool :=
  if goStartsWith key (str "http://") ∨ goStartsWith key (str "https://") then
    .error (.httpPrefixKey key)
  else if containsB key 64 then
    .error (.atCharKey key)
  else
    match indexOfB key 47 with
    | some firstSlash =>
      if containsB (key.drop (firstSlash + 1)) 58 then
        .error (.colonAfterSlashKey key)
      else .ok true
    | none => .ok false

/-- The registry of a key: the part before the first slash, or the whole key
(inline computation in getCredentialsWithHomeDir and callers). -/
def registryOf (key : GoStr) : GoStr :=
  match indexOfB key 47 with
  | some firstSlash => key.take firstSlash
  | none => key

/-- authKeysForKey loop body, with fuel (the loop truncates the key at its last
slash until none remains; the fuel `key.length + 1` always suffices). -/
def authKeysAux : Nat → GoStr → List GoStr
  | 0, key => [key]
  | f + 1, key =>
    match lastIndexOfB key 47 with
    | none => [key]
    | some lastSlash => key :: authKeysAux f (key.take lastSlash)

/-- authKeysForKey: candidate file keys for a lookup key, best match first. -/
def authKeysForKey (key : GoStr) : List GoStr := authKeysAux (key.length + 1) key

/-- normalizeRegistry. -/
def normalizeRegistry (registry : GoStr) : GoStr :=
  if registry = str "registry-1.docker.io" ∨ registry = str "docker.io" then
    str "index.docker.io"
  else registry

/-- normalizeAuthFileKey: strip a scheme, truncate at the first slash when a
scheme was stripped or the file is legacy, then canonicalize. -/
def normalizeAuthFileKey (key : GoStr) (legacyFormat : Bool) : GoStr :=
  let stripped := goTrimPrefixOf key (str "http://")
  let stripped := goTrimPrefixOf stripped (str "https://")
  let stripped :=
    if legacyFormat ∨ stripped ≠ key then (cutB stripped 47).1 else stripped
  normalizeRegistry stripped

/-- decodeDockerAuth: base64-decode the auth field, split at the first colon,
trim NUL bytes from the password (strings.Trim trims both ends). -/
def decodeDockerAuth (path key : GoStr) (conf : dockerAuthConfig) :
    Except Err DockerAuthConfig :=
  match b64decode conf.auth with
  | none => .error (.base64Corrupt conf.auth)
  | some decoded =>
    let cut := cutB decoded 58
    if cut.2.2 = false then
      -- invalid (no colon): skip, as docker does; key and path feed only logging
      .ok emptyDockerAuthConfig
    else
      .ok ⟨cut.1, trimB cut.2.1 0, conf.identityToken⟩

/-! ### JSON (the fragment of encoding/json exercised by config.go)

The auth files contain only objects of strings and nested objects.  We model
JSON values as null, strings and objects, and a recursive-descent reader with
fuel; inputs using other JSON constructs are treated as invalid by the model.
Empty input is invalid (as in encoding/json), and trailing non-whitespace
after the top-level value is invalid. -/

/-- A JSON value (the fragment used by auth files). -/
inductive Json where
  | null
  | strVal (s : GoStr)
  | obj (fields : List (GoStr × Json))

/-- JSON whitespace. -/
def isWs (c : Nat) : Bool := c = 32 ∨ c = 9 ∨ c = 10 ∨ c = 13

/-- Skip JSON whitespace. -/
def skipWs (s : List Nat) : List Nat := s.dropWhile isWs

/-- Read a JSON string body after the opening quote (fuel-based; the fuel
`input length` always suffices); supports the escapes backslash-quote,
backslash-backslash and backslash-slash (the only ones that can appear in the
modelled data). -/
def readStringBody : Nat → List Nat → Option (GoStr × List Nat)
  | 0, _ => none
  | _ + 1, [] => none
  | f + 1, c :: rest =>
    if c = 34 then some ([], rest)
    else if c = 92 then
      match rest with
      | e :: rest2 =>
        if e = 34 ∨ e = 92 ∨ e = 47 then
          (readStringBody f rest2).map (fun r => (e :: r.1, r.2))
        else none
      | [] => none
    else (readStringBody f rest).map (fun r => (c :: r.1, r.2))

/-- Read JSON (fuel-based).  With `inObj = false`, reads one JSON value.  With
`inObj = true`, reads the remaining fields of an object after the opening
brace into `acc`; `first` is true before the first field (an immediate closing
brace then means an empty object). -/
def readJson : Nat → Bool → List Nat → List (GoStr × Json) → Bool →
    Option (Json × List Nat)
  | 0, _, _, _, _ => none
  | f + 1, false, s, _, _ =>
    (match skipWs s with
    | [] => none
    | c :: rest =>
      if c = 34 then (readStringBody rest.length rest).map (fun r => (.strVal r.1, r.2))
      else if c = 123 then readJson f true rest [] true
      else if c = 110 then
        match rest with
        | 117 :: 108 :: 108 :: r => some (.null, r)
        | _ => none
      else none)
  | f + 1, true, s, acc, first =>
    (match skipWs s with
    | [] => none
    | c :: rest =>
      if c = 125 ∧ first = true then some (.obj acc, rest)
      else if c = 34 then
        match readStringBody rest.length rest with
        | none => none
        | some (key, rest2) =>
          match skipWs rest2 with
          | 58 :: rest3 =>
            match readJson f false rest3 [] true with
            | none => none
            | some (v, rest4) =>
              match skipWs rest4 with
              | 44 :: rest5 => readJson f true rest5 (acc ++ [(key, v)]) false
              | 125 :: rest5 => some (.obj (acc ++ [(key, v)]), rest5)
              | _ => none
          | _ => none
      else none)

/-- Read one JSON value. -/
def readJsonVal (fuel : Nat) (s : List Nat) : Option (Json × List Nat) :=
  readJson fuel false s [] true

/-- Parse a whole JSON document: one value plus trailing whitespace. -/
def jsonParseTop (raw : List Nat) : Option Json :=
  match readJsonVal (2 * raw.length + 4) raw with
  | some (j, rest) => if skipWs rest = [] then some j else none
  | none => none

/-- Unmarshal a JSON value into a Go string field (null leaves the zero value). -/
def jsonToStr : Json → Except Unit GoStr
  | .strVal s => .ok s
  | .null => .ok []
  | .obj _ => .error ()

/-- Unmarshal a JSON value into a dockerAuthConfig (unknown fields ignored,
later duplicate fields overwrite, as in encoding/json). -/
def jsonToAuthConfig (j : Json) : Except Unit dockerAuthConfig :=
  match j with
  | .null => .ok ⟨[], []⟩
  | .strVal _ => .error ()
  | .obj fields =>
    fields.foldlM
      (fun (acc : dockerAuthConfig) kv =>
        if kv.1 = str "auth" then (jsonToStr kv.2).map (fun v => { acc with auth := v })
        else if kv.1 = str "identitytoken" then
          (jsonToStr kv.2).map (fun v => { acc with identityToken := v })
        else .ok acc)
      ⟨[], []⟩

/-- Unmarshal a JSON value into map[string]dockerAuthConfig (null gives a nil map). -/
def jsonToAuthsMap (j : Json) : Except Unit (GoMap dockerAuthConfig) :=
  match j with
  | .null => .ok none
  | .strVal _ => .error ()
  | .obj fields =>
    fields.foldlM
      (fun (acc : GoMap dockerAuthConfig) kv =>
        (jsonToAuthConfig kv.2).map (fun v => mapSet acc kv.1 v))
      (some [])

/-- Unmarshal a JSON value into map[string]string (null gives a nil map). -/
def jsonToStrMap (j : Json) : Except Unit (GoMap GoStr)  :=
  match j with
  | .null => .ok none
  | .strVal _ => .error ()
  | .obj fields =>
    fields.foldlM
      (fun (acc : GoMap GoStr) kv => (jsonToStr kv.2).map (fun v => mapSet acc kv.1 v))
      (some [])

/-- json.Unmarshal into a dockerConfigFile (fields auths and credHelpers;
unknown fields ignored; top-level null leaves both maps nil). -/
def unmarshalConfigFile (raw : List Nat) : Except Unit dockerConfigFile :=
  match jsonParseTop raw with
  | none => .error ()
  | some .null => .ok ⟨none, none⟩
  | some (.strVal _) => .error ()
  | some (.obj fields) =>
    fields.foldlM
      (fun (acc : dockerConfigFile) kv =>
        if kv.1 = str "auths" then
          (jsonToAuthsMap kv.2).map (fun m => { acc with authConfigs := m })
        else if kv.1 = str "credHelpers" then
          (jsonToStrMap kv.2).map (fun m => { acc with credHelpers := m })
        else .ok acc)
      ⟨none, none⟩

/-- json.Unmarshal into map[string]dockerAuthConfig (the legacy file layout). -/
def unmarshalAuthsMap (raw : List Nat) : Except Unit (GoMap dockerAuthConfig) :=
  match jsonParseTop raw with
  | none => .error ()
  | some j => jsonToAuthsMap j

/-! ### Filesystem, environment, external helpers -/

/-- Outcome of os.ReadFile at one path. -/
inductive ReadResult where
  /-- The file does not exist (os.IsNotExist). -/
  | absent
  /-- Some other read error. -/
  | ioError
  /-- The file exists with these raw bytes. -/
  | content (raw : List Nat)

/-- The environment and OS facts consumed by config.go.  Environment variables
use the Go convention that the empty string means unset. -/
structure Env where
  xdgRuntimeDir : GoStr
  xdgRuntimeDirExists : Bool
  xdgConfigHome : GoStr
  dockerConfig : GoStr
  homeDir : GoStr
  goOS : GoStr
  uid : Nat

/-- The fields of types.SystemContext read by config.go. -/
structure SystemContext where
  authFilePath : GoStr
  legacyFormatAuthFilePath : GoStr
  rootForImplicitAbsolutePaths : GoStr
  dockerAuthConfig : Option DockerAuthConfig

/-- The world: environment plus filesystem plus the outcomes of the two
write-side syscalls made by modifyJSON (the model does not track post-write
file contents; no modelled path re-reads a file it wrote). -/
structure World where
  env : Env
  fs : GoStr → ReadResult
  mkdirRes : Except Err Unit
  writeRes : Except Err Unit

/-- Reply of an external credential helper to a get. -/
structure HelperCreds where
  username : GoStr
  secret : GoStr

/-- The external credential-helper subprocesses (out-of-scope collaborators):
outcome of get, store and erase per helper name; errors carry the message
string the Go error would render (compared against the not-found sentinel). -/
structure ExtHelpers where
  get : GoStr → GoStr → Except GoStr HelperCreds
  store : GoStr → GoStr → GoStr → GoStr → Except GoStr Unit
  erase : GoStr → GoStr → Except GoStr Unit

/-- getAuthFromCredHelper: a not-found reply is an empty result, not an error;
the token sentinel username yields an identity-token record. -/
def getAuthFromCredHelper (E : ExtHelpers) (credHelper registry : GoStr) :
    Except Err DockerAuthConfig :=
  match E.get credHelper registry with
  | .error msg =>
    if msg = errCredentialsNotFoundMsg then .ok emptyDockerAuthConfig
    else .error (.helperFailed credHelper msg)
  | .ok creds =>
    if creds.username = tokenUsername then .ok ⟨[], [], creds.secret⟩
    else .ok ⟨creds.username, creds.secret, []⟩

/-- setAuthToCredHelper: store and return the helper description. -/
def setAuthToCredHelper (E : ExtHelpers) (credHelper registry username password : GoStr) :
    Except Err GoStr :=
  match E.store credHelper registry username password with
  | .error msg => .error (.helperFailed credHelper msg)
  | .ok _ => .ok (str "credential helper: " ++ credHelper)

/-- deleteAuthFromCredHelper. -/
def deleteAuthFromCredHelper (E : ExtHelpers) (credHelper registry : GoStr) :
    Except GoStr Unit :=
  E.erase credHelper registry

/-! ### File store -/

/-- authPath.parse: an absent file yields an empty document with the auths map
initialized and the credHelpers map left nil (the Go zero value); a present
file is unmarshalled in the format the path expects, and only the modern
format normalizes nil maps to empty ones. -/
def authPathParse (fs : GoStr → ReadResult) (p : authPath) : Except Err dockerConfigFile :=
  match fs p.path with
  | .absent => .ok { authConfigs := some [], credHelpers := none }
  | .ioError => .error (.ioRead p.path)
  | .content raw =>
    if p.legacyFormat then
      match unmarshalAuthsMap raw with
      | .error _ => .error (.jsonUnmarshal p.path)
      | .ok m => .ok { authConfigs := m, credHelpers := none }
    else
      match unmarshalConfigFile raw with
      | .error _ => .error (.jsonUnmarshal p.path)
      | .ok f =>
        .ok { authConfigs := if f.authConfigs = none then some [] else f.authConfigs,
              credHelpers := if f.credHelpers = none then some [] else f.credHelpers }

/-! ### Path resolver -/

/-- The per-UID default path, fmt.Sprintf of defaultPerUIDPathFormat. -/
def perUIDPath (uid : Nat) : GoStr :=
  str "/run/containers/" ++ natStr uid ++ str "/auth.json"

/-- The OS- and environment-derived default branch of getPathToAuthWithOS
(reached when the system context picks no path). -/
def getPathToAuthDefault (env : Env) : Except Err (authPath × Bool) :=
  if env.goOS = str "windows" ∨ env.goOS = str "darwin" then
    .ok (newAuthPathDefault (goJoin env.homeDir (str ".config/containers/auth.json")), false)
  else if env.xdgRuntimeDir ≠ [] then
    if env.xdgRuntimeDirExists = false then
      .error (.xdgRuntimeDirMissing env.xdgRuntimeDir)
    else
      .ok (newAuthPathDefault (goJoin env.xdgRuntimeDir (str "containers/auth.json")), false)
  else
    .ok (newAuthPathDefault (perUIDPath env.uid), false)

/-- getPathToAuthWithOS: explicit context paths are user-specified; the
implicit-root, OS and environment defaults are not. -/
def getPathToAuthWithOS (sys : Option SystemContext) (env : Env) :
    Except Err (authPath × Bool) :=
  match sys with
  | some s =>
    if s.authFilePath ≠ [] then .ok (newAuthPathDefault s.authFilePath, true)
    else if s.legacyFormatAuthFilePath ≠ [] then
      .ok ({ path := s.legacyFormatAuthFilePath, legacyFormat := true }, true)
    else if s.rootForImplicitAbsolutePaths ≠ [] then
      .ok (newAuthPathDefault
        (goJoin s.rootForImplicitAbsolutePaths (perUIDPath env.uid)), false)
    else getPathToAuthDefault env
  | none => getPathToAuthDefault env

/-- getAuthFilePaths: the primary path (dropped, with a warning, if the
resolver errored) followed, unless the primary was user-specified, by the
XDG config home path, the docker config path and the legacy docker path. -/
def getAuthFilePaths (sys : Option SystemContext) (env : Env) : List authPath :=
  let r := getPathToAuthWithOS sys env
  let paths : List authPath := match r with | .ok (p, _) => [p] | .error _ => []
  let userSpecifiedPath : Bool := match r with | .ok (_, u) => u | .error _ => false
  if userSpecifiedPath then paths
  else
    let xdgCfgHome :=
      if env.xdgConfigHome = [] then goJoin env.homeDir (str ".config")
      else env.xdgConfigHome
    let paths := paths ++ [newAuthPathDefault (goJoin xdgCfgHome (str "containers/auth.json"))]
    let paths := paths ++
      [if env.dockerConfig ≠ [] then
        newAuthPathDefault (goJoin env.dockerConfig (str "config.json"))
      else
        newAuthPathDefault (goJoin env.homeDir (str ".docker/config.json"))]
    paths ++ [{ path := goJoin env.homeDir (str ".dockercfg"), legacyFormat := true }]

/-! ### Entry matcher -/

/-- The candidate-probing loop of findCredentialsInFile: the first candidate
key with an auths entry, with that entry. -/
def firstHit (m : GoMap dockerAuthConfig) : List GoStr → Option (GoStr × dockerAuthConfig)
  | [] => none
  | k :: rest =>
    match mapGet m k with
    | some v => some (k, v)
    | none => firstHit m rest

/-- The body of findCredentialsInFile after the file is parsed: credHelpers
delegation, then exact candidate probing, then the normalization fallback. -/
def findCredentialsInParsed (E : ExtHelpers) (key registry : GoStr) (p : authPath)
    (auths : dockerConfigFile) : Except Err DockerAuthConfig :=
  match mapGet auths.credHelpers registry with
  | some ch => getAuthFromCredHelper E ch registry
  | none =>
    let keys := if p.legacyFormat = false then authKeysForKey key else [registry]
    match firstHit auths.authConfigs keys with
    | some kv => decodeDockerAuth p.path kv.1 kv.2
    | none =>
      let registry2 := normalizeRegistry registry
      match (auths.authConfigs.getD []).find?
          (fun kv => normalizeAuthFileKey kv.1 p.legacyFormat = registry2) with
      | some kv => decodeDockerAuth p.path kv.1 kv.2
      | none => .ok emptyDockerAuthConfig

/-- findCredentialsInFile: parse, then match; parse errors are wrapped. -/
def findCredentialsInFile (E : ExtHelpers) (fs : GoStr → ReadResult)
    (key registry : GoStr) (p : authPath) : Except Err DockerAuthConfig :=
  match authPathParse fs p with
  | .error e => .error (.readingJSONFile p.path e)
  | .ok auths => findCredentialsInParsed E key registry p auths

/-! ### Resolution engine -/

/-- The getCredentialsFromAuthFiles loop over an explicit path list: the first
file error aborts; the first non-empty record wins with its path. -/
def getCredsFromFilesLoop (E : ExtHelpers) (fs : GoStr → ReadResult)
    (key registry : GoStr) : List authPath → Except Err (DockerAuthConfig × GoStr)
  | [] => .ok (emptyDockerAuthConfig, [])
  | p :: rest =>
    match findCredentialsInFile E fs key registry p with
    | .error e => .error e
    | .ok authConfig =>
      if authConfig ≠ emptyDockerAuthConfig then .ok (authConfig, p.path)
      else getCredsFromFilesLoop E fs key registry rest

/-- The helper-chain loop of getCredentialsWithHomeDir: per-helper errors are
accumulated and the loop continues; the first non-empty record is returned;
with no hit, the accumulated errors (if any) are returned. -/
def getCredsHelperLoop (E : ExtHelpers) (W : World) (sys : Option SystemContext)
    (key registry : GoStr) : List GoStr → List Err → Except Err DockerAuthConfig
  | [], errs => if errs.isEmpty then .ok emptyDockerAuthConfig else .error (.multi errs)
  | helper :: rest, errs =>
    let r : Except Err DockerAuthConfig :=
      if helper = authenticationFileHelper then
        (getCredsFromFilesLoop E W.fs key registry (getAuthFilePaths sys W.env)).map
          (fun cp => cp.1)
      else
        -- external helpers are queried with the registry, not the key
        getAuthFromCredHelper E helper registry
    match r with
    | .error e => getCredsHelperLoop E W sys key registry rest (errs ++ [e])
    | .ok creds =>
      if creds ≠ emptyDockerAuthConfig then .ok creds
      else getCredsHelperLoop E W sys key registry rest errs

/-- getCredentialsWithHomeDir: validate, short-circuit on an inline context
credential, then run the helper chain. -/
def getCredentialsWithHomeDir (E : ExtHelpers) (W : World) (sys : Option SystemContext)
    (helpersR : Except Err (List GoStr)) (key : GoStr) : Except Err DockerAuthConfig :=
  match validateKey key with
  | .error e => .error e
  | .ok _ =>
    match sys.bind (fun s => s.dockerAuthConfig) with
    | some c => .ok c
    | none =>
      match helpersR with
      | .error e => .error e
      | .ok helpers => getCredsHelperLoop E W sys key (registryOf key) helpers []

/-- modifyJSON, generic in the state the editor closure mutates: resolve the
primary path (legacy paths are write-rejected), ensure the directory, parse,
run the editor, and write back when the editor marked the document dirty. -/
def modifyJSON {σ : Type} (W : World) (sys : Option SystemContext)
    (editor : dockerConfigFile → σ → (Bool × GoStr × Option Err × dockerConfigFile) × σ)
    (s : σ) : Except Err GoStr × σ :=
  match getPathToAuthWithOS sys W.env with
  | .error e => (.error e, s)
  | .ok (p, _) =>
    if p.legacyFormat then (.error (.legacyWriteUnsupported p.path), s)
    else
      match W.mkdirRes with
      | .error e => (.error e, s)
      | .ok _ =>
        match authPathParse W.fs p with
        | .error e => (.error (.readingJSONFile p.path e), s)
        | .ok auths =>
          let er := editor auths s
          let updated := er.1.1
          let description := er.1.2.1
          let editorErr := er.1.2.2.1
          match editorErr with
          | some e => (.error (.updating p.path e), er.2)
          | none =>
            let write : Except Err Unit :=
              if updated then
                match W.writeRes with
                | .error _ => .error (.ioWrite p.path)
                | .ok _ => .ok ()
              else .ok ()
            match write with
            | .error e => (.error e, er.2)
            | .ok _ =>
              ((.ok (if description = [] then p.path else description)), er.2)

/-- A record of one external store invocation: helper, key, username, password. -/
abbrev StoreCall := GoStr × GoStr × GoStr × GoStr

/-- The editor closure of SetCredentials: delegate to an embedded credHelpers
entry when one exists for the key (rejecting namespaced keys), otherwise
insert the base64 credentials into auths and mark the file dirty.  The call
trace records external store invocations. -/
def setCredentialsEditor (E : ExtHelpers) (isNamespaced : Bool)
    (key username password : GoStr) (auths : dockerConfigFile) (tr : List StoreCall) :
    (Bool × GoStr × Option Err × dockerConfigFile) × List StoreCall :=
  match mapGet auths.credHelpers key with
  | some ch =>
    if isNamespaced then ((false, [], some (.unsupportedNamespace ch), auths), tr)
    else
      let tr2 := tr ++ [(ch, key, username, password)]
      match setAuthToCredHelper E ch key username password with
      | .error e => ((false, [], some e, auths), tr2)
      | .ok desc => ((false, desc, none, auths), tr2)
  | none =>
    let creds := b64encode (username ++ 58 :: password)
    ((true, [], none,
      { auths with authConfigs := mapSet auths.authConfigs key ⟨creds, []⟩ }), tr)

/-- The helper-chain loop of SetCredentials: the first helper success returns
its description; failures accumulate and the loop continues. -/
def setCredsLoop (E : ExtHelpers) (W : World) (sys : Option SystemContext)
    (isNamespaced : Bool) (key username password : GoStr) :
    List GoStr → List Err → List StoreCall → Except Err GoStr × List StoreCall
  | [], errs, tr => (if errs.isEmpty then .ok [] else .error (.multi errs), tr)
  | helper :: rest, errs, tr =>
    let r : Except Err GoStr × List StoreCall :=
      if helper = authenticationFileHelper then
        modifyJSON W sys (setCredentialsEditor E isNamespaced key username password) tr
      else
        if isNamespaced then (.error (.unsupportedNamespace helper), tr)
        else
          let tr2 := tr ++ [(helper, key, username, password)]
          (setAuthToCredHelper E helper key username password, tr2)
    match r with
    | (.error e, tr2) => setCredsLoop E W sys isNamespaced key username password rest (errs ++ [e]) tr2
    | (.ok desc, tr2) => (.ok desc, tr2)

/-- SetCredentials: validate the key, then run the helper chain. -/
def setCredentials (E : ExtHelpers) (W : World) (sys : Option SystemContext)
    (helpersR : Except Err (List GoStr)) (key username password : GoStr) :
    Except Err GoStr × List StoreCall :=
  match validateKey key with
  | .error e => (.error e, [])
  | .ok isNamespaced =>
    match helpersR with
    | .error e => (.error e, [])
    | .ok helpers => setCredsLoop E W sys isNamespaced key username password helpers [] []

/-- The mutable state of RemoveAuthentication: accumulated errors, the
logged-in flag, and (model instrumentation) the trace of external erase
invocations as (helper, key) pairs. -/
structure RmSt where
  multiErr : List Err
  isLoggedIn : Bool
  trace : List (GoStr × GoStr)

/-- The removeFromCredHelper closure: namespaced keys are skipped; a
successful erase sets the logged-in flag; a not-found reply is ignored; any
other failure is accumulated. -/
def removeFromCredHelper (E : ExtHelpers) (isNamespaced : Bool) (key helper : GoStr)
    (st : RmSt) : RmSt :=
  if isNamespaced then st
  else
    let st2 := { st with trace := st.trace ++ [(helper, key)] }
    match deleteAuthFromCredHelper E helper key with
    | .ok _ => { st2 with isLoggedIn := true }
    | .error msg =>
      if msg = errCredentialsNotFoundMsg then st2
      else { st2 with multiErr := st2.multiErr ++ [.removingCreds key helper msg] }

/-- The editor closure of RemoveAuthentication: delegate an embedded
credHelpers entry to removeFromCredHelper, delete an auths entry for the key
(setting the logged-in flag), mark the document dirty unconditionally, and
hand the errors accumulated so far back as the editor error. -/
def removeAuthEditor (E : ExtHelpers) (isNamespaced : Bool) (key : GoStr)
    (auths : dockerConfigFile) (st : RmSt) :
    (Bool × GoStr × Option Err × dockerConfigFile) × RmSt :=
  let st1 :=
    match mapGet auths.credHelpers key with
    | some innerHelper => removeFromCredHelper E isNamespaced key innerHelper st
    | none => st
  let step2 : dockerConfigFile × RmSt :=
    match mapGet auths.authConfigs key with
    | some _ =>
      ({ auths with authConfigs := mapDel auths.authConfigs key },
        { st1 with isLoggedIn := true })
    | none => (auths, st1)
  ((true, [],
    (if step2.2.multiErr.isEmpty then none else some (.multi step2.2.multiErr)),
    step2.1), step2.2)

/-- One helper step of RemoveAuthentication: the file helper runs a modifyJSON
transaction (whose error, if any, is accumulated); an external helper runs
removeFromCredHelper. -/
def removeAuthStep (E : ExtHelpers) (W : World) (sys : Option SystemContext)
    (isNamespaced : Bool) (key helper : GoStr) (st : RmSt) : RmSt :=
  if helper = authenticationFileHelper then
    let r := modifyJSON W sys (removeAuthEditor E isNamespaced key) st
    match r.1 with
    | .error e => { r.2 with multiErr := r.2.multiErr ++ [e] }
    | .ok _ => r.2
  else removeFromCredHelper E isNamespaced key helper st

/-- The helper-chain loop of RemoveAuthentication: every helper is attempted. -/
def removeAuthLoop (E : ExtHelpers) (W : World) (sys : Option SystemContext)
    (isNamespaced : Bool) (key : GoStr) : List GoStr → RmSt → RmSt
  | [], st => st
  | helper :: rest, st =>
    removeAuthLoop E W sys isNamespaced key rest
      (removeAuthStep E W sys isNamespaced key helper st)

/-- RemoveAuthentication: validate, attempt every helper, then report the
accumulated errors, or NotLoggedIn when nothing was deleted, or success.
Returns the result together with the external erase trace. -/
def removeAuthentication (E : ExtHelpers) (W : World) (sys : Option SystemContext)
    (helpersR : Except Err (List GoStr)) (key : GoStr) :
    Except Err Unit × List (GoStr × GoStr) :=
  match validateKey key with
  | .error e => (.error e, [])
  | .ok isNamespaced =>
    match helpersR with
    | .error e => (.error e, [])
    | .ok helpers =>
      let st := removeAuthLoop E W sys isNamespaced key helpers ⟨[], false, []⟩
      (if st.multiErr.isEmpty = false then .error (.multi st.multiErr)
       else if st.isLoggedIn = false then .error .notLoggedIn
       else .ok (), st.trace)

/-! ### Spec-side predicates

The following definitions follow the words of the specification (not the
code); they are compared with the code-derived definitions in the theorems
about RemoveAuthentication. -/

/-- Spec: an external erase for the key fails for real (a not-found reply is
non-fatal). -/
def extEraseFails (E : ExtHelpers) (key h : GoStr) : Prop :=
  ∃ msg, E.erase h key = .error msg ∧ msg ≠ errCredentialsNotFoundMsg

/-- Spec: an external erase for the key succeeds. -/
def extEraseSucceeds (E : ExtHelpers) (key h : GoStr) : Prop :=
  E.erase h key = .ok ()

/-- Spec: the file-backend step of a remove encounters an error of its own:
path resolution failed, the primary path is legacy, the directory could not
be made, the file could not be parsed, an embedded helper erase failed, or
the write-back failed. -/
def fileStepErrorsSpec (E : ExtHelpers) (W : World) (sys : Option SystemContext)
    (ns : Bool) (key : GoStr) : Prop :=
  (∃ e, getPathToAuthWithOS sys W.env = .error e) ∨
  (∃ p u, getPathToAuthWithOS sys W.env = .ok (p, u) ∧
    (p.legacyFormat = true ∨
     (∃ e, W.mkdirRes = .error e) ∨
     (∃ e, authPathParse W.fs p = .error e) ∨
     (∃ doc, authPathParse W.fs p = .ok doc ∧
       ((∃ ih, mapGet doc.credHelpers key = some ih ∧ ns = false ∧ extEraseFails E key ih) ∨
        (∃ e, W.writeRes = .error e)))))

/-- Spec: the file-backend step of a remove actually deletes a credential:
it reaches the parsed document and either an embedded helper erase succeeds
or an auths entry for the key exists (and is deleted). -/
def fileStepDeletesSpec (E : ExtHelpers) (W : World) (sys : Option SystemContext)
    (ns : Bool) (key : GoStr) : Prop :=
  ∃ p u doc, getPathToAuthWithOS sys W.env = .ok (p, u) ∧ p.legacyFormat = false ∧
    W.mkdirRes = .ok () ∧ authPathParse W.fs p = .ok doc ∧
    ((∃ ih, mapGet doc.credHelpers key = some ih ∧ ns = false ∧ extEraseSucceeds E key ih) ∨
     (∃ v, mapGet doc.authConfigs key = some v))

/-- Spec: one helper step of a remove errors. -/
def removeStepErrorsSpec (E : ExtHelpers) (W : World) (sys : Option SystemContext)
    (ns : Bool) (key h : GoStr) : Prop :=
  if h = authenticationFileHelper then fileStepErrorsSpec E W sys ns key
  else ns = false ∧ extEraseFails E key h

/-- Spec: one helper step of a remove deletes a credential. -/
def removeStepDeletesSpec (E : ExtHelpers) (W : World) (sys : Option SystemContext)
    (ns : Bool) (key h : GoStr) : Prop :=
  if h = authenticationFileHelper then fileStepDeletesSpec E W sys ns key
  else ns = false ∧ extEraseSucceeds E key h

/-- Spec: some step of the remove errors. -/
def removeAnyErrorSpec (E : ExtHelpers) (W : World) (sys : Option SystemContext)
    (ns : Bool) (key : GoStr) (helpers : List GoStr) : Prop :=
  ∃ h ∈ helpers, removeStepErrorsSpec E W sys ns key h

/-- Spec: some step of the remove deletes a credential. -/
def removeDeletesSpec (E : ExtHelpers) (W : World) (sys : Option SystemContext)
    (ns : Bool) (key : GoStr) (helpers : List GoStr) : Prop :=
  ∃ h ∈ helpers, removeStepDeletesSpec E W sys ns key h

/-! ### Concrete sample objects for closed instantiations -/

/-- A helper environment in which every subprocess call fails with an empty
message (never consulted on the paths where it is used). -/
def trivialExt : ExtHelpers :=
  ⟨fun _ _ => .error [], fun _ _ _ _ => .error [], fun _ _ => .error []⟩

/-- A helper environment in which every erase succeeds. -/
def eraseOkExt : ExtHelpers :=
  ⟨fun _ _ => .error [], fun _ _ _ _ => .error [], fun _ _ => .ok ()⟩

/-- A sample environment. -/
def sampleEnv : Env :=
  { xdgRuntimeDir := [], xdgRuntimeDirExists := false, xdgConfigHome := [],
    dockerConfig := [], homeDir := str "/home/u", goOS := str "linux", uid := 7 }

/-- A sample world whose filesystem has no files and whose writes succeed. -/
def sampleWorld : World :=
  { env := sampleEnv, fs := fun _ => .absent, mkdirRes := .ok (), writeRes := .ok () }

/-- A sample system context choosing an explicit auth-file path. -/
def sampleSys : SystemContext :=
  { authFilePath := str "/af.json", legacyFormatAuthFilePath := [],
    rootForImplicitAbsolutePaths := [], dockerAuthConfig := none }

/-- A sample auth file whose only entry carries an invalid base64 auth field. -/
def badAuthRaw : GoStr := str "\x7b\"auths\":\x7b\"r\":\x7b\"auth\":\"!!!\"\x7d\x7d\x7d"

/-- A sample world in which every path holds the bad-base64 auth file. -/
def badAuthWorld : World :=
  { env := sampleEnv, fs := fun _ => .content badAuthRaw,
    mkdirRes := .ok (), writeRes := .ok () }

/-! ## Theorems -/

/-! ### Lemmas about the string primitives -/

theorem indexOfB_none_iff (s : GoStr) (b : Nat) :
    indexOfB s b = none ↔ containsB s b = false := by
  induction s with
  | nil => simp [indexOfB, containsB]
  | cons c rest ih =>
    by_cases hc : c = b <;> simp [indexOfB, containsB, hc] at ih ⊢ <;> simp [ih]

theorem contains_of_indexOfB_some (s : GoStr) (b i : Nat) (h : indexOfB s b = some i) :
    containsB s b = true := by
  cases hcb : containsB s b
  · have := (indexOfB_none_iff s b).mpr hcb
    simp [h] at this
  · rfl

theorem indexOfB_some_decomp (s : GoStr) (b : Nat) :
    ∀ i, indexOfB s b = some i →
      s.take i ++ b :: s.drop (i + 1) = s ∧ containsB (s.take i) b = false := by
  induction s with
  | nil => intro i h; simp [indexOfB] at h
  | cons c rest ih =>
    intro i h
    by_cases hc : c = b
    · simp [indexOfB, hc] at h
      subst h
      simp [hc, containsB]
    · simp [indexOfB, hc] at h
      obtain ⟨j, hj, hji⟩ := h
      subst hji
      obtain ⟨h1, h2⟩ := ih j hj
      constructor
      · show (c :: rest).take (j + 1) ++ b :: (c :: rest).drop (j + 1 + 1) = c :: rest
        simp only [List.take_succ_cons, List.drop_succ_cons, List.cons_append]
        rw [h1]
      · simp only [List.take_succ_cons, containsB, List.any_cons] at h2 ⊢
        simp [hc, h2]

theorem indexOfB_append_cons (pre post : GoStr) (b : Nat) (h : containsB pre b = false) :
    indexOfB (pre ++ b :: post) b = some pre.length := by
  induction pre with
  | nil => simp [indexOfB]
  | cons c rest ih =>
    simp [containsB] at h
    obtain ⟨hc, hrest⟩ := h
    simp [indexOfB, hc, ih (by simpa [containsB] using hrest)]

/-! ### Claim C3 -/

/-- Claim C3: validateKey fails with InvalidKey exactly when the key begins
with an http or https scheme, contains an at sign, or contains a slash with a
colon somewhere after the first slash; it rejects the three literal examples,
accepts localhost:5000/foo, and on success reports the key as namespaced iff
it contains a slash. -/
theorem validateKey_characterization (key : GoStr) :
    ((∃ e, validateKey key = .error e) ↔
      (goStartsWith key (str "http://") = true ∨ goStartsWith key (str "https://") = true ∨
        containsB key 64 = true ∨
        ∃ pre post, key = pre ++ 47 :: post ∧ containsB pre 47 = false ∧
          containsB post 58 = true)) ∧
    (∀ b, validateKey key = .ok b → b = containsB key 47) ∧
    (∃ e, validateKey (str "https://x") = .error e) ∧
    (∃ e, validateKey (str "a/b:1") = .error e) ∧
    (∃ e, validateKey (str "x@sha256:3b1b") = .error e) ∧
    validateKey (str "localhost:5000/foo") = .ok true := by
  refine ⟨⟨?_, ?_⟩, ?_, ⟨.httpPrefixKey (str "https://x"), rfl⟩,
    ⟨.colonAfterSlashKey (str "a/b:1"), rfl⟩, ⟨.atCharKey (str "x@sha256:3b1b"), rfl⟩, rfl⟩
  · rintro ⟨e, he⟩
    unfold validateKey at he
    split at he
    · rename_i hpre
      rcases hpre with h | h
      · exact Or.inl h
      · exact Or.inr (Or.inl h)
    · split at he
      · rename_i hat
        exact Or.inr (Or.inr (Or.inl hat))
      · split at he
        · rename_i i hidx
          split at he
          · rename_i hcol
            obtain ⟨hdec, hfree⟩ := indexOfB_some_decomp key 47 i hidx
            exact Or.inr (Or.inr (Or.inr ⟨key.take i, key.drop (i + 1), hdec.symm, hfree, hcol⟩))
          · exact absurd he (by simp)
        · exact absurd he (by simp)
  · intro hcond
    unfold validateKey
    split
    · exact ⟨_, rfl⟩
    · split
      · exact ⟨_, rfl⟩
      · rename_i hnpre hnat
        rcases hcond with h | h | h | ⟨pre, post, hkey, hfree, hcol⟩
        · exact absurd (Or.inl h) hnpre
        · exact absurd (Or.inr h) hnpre
        · exact absurd h hnat
        · subst hkey
          rw [indexOfB_append_cons pre post 47 hfree]
          have hdrop : (pre ++ 47 :: post).drop (pre.length + 1) = post := by
            have heq : pre ++ 47 :: post = (pre ++ [47]) ++ post := by simp
            have hlen : pre.length + 1 = (pre ++ [47]).length := by simp
            rw [heq, hlen, List.drop_left]
          refine ⟨.colonAfterSlashKey (pre ++ 47 :: post), ?_⟩
          simp [hdrop, hcol]
  · intro b hb
    unfold validateKey at hb
    split at hb
    · exact absurd hb (by simp)
    · split at hb
      · exact absurd hb (by simp)
      · split at hb
        · rename_i i hidx
          split at hb
          · exact absurd hb (by simp)
          · simp at hb
            subst hb
            exact (contains_of_indexOfB_some key 47 i hidx).symm
        · rename_i hidx
          simp at hb
          subst hb
          exact ((indexOfB_none_iff key 47).mp hidx).symm

theorem validateKey_characterization_witness :
    true = containsB (str "localhost:5000/foo") 47 :=
  (validateKey_characterization (str "localhost:5000/foo")).2.1 true rfl

/-! ### Lemmas about lastIndexOfB and authKeysForKey -/

theorem containsB_true_iff (s : GoStr) (b : Nat) : containsB s b = true ↔ b ∈ s := by
  simp only [containsB, List.any_eq_true, decide_eq_true_eq]
  constructor
  · rintro ⟨x, hx, rfl⟩
    exact hx
  · intro h
    exact ⟨b, h, rfl⟩

theorem containsB_false_iff (s : GoStr) (b : Nat) : containsB s b = false ↔ b ∉ s := by
  constructor
  · intro h hmem
    have := (containsB_true_iff s b).mpr hmem
    rw [h] at this
    cases this
  · intro h
    cases hcb : containsB s b
    · rfl
    · exact absurd ((containsB_true_iff s b).mp hcb) h

theorem lastIndexOfB_none_iff (s : GoStr) (b : Nat) :
    lastIndexOfB s b = none ↔ containsB s b = false := by
  induction s with
  | nil => simp [lastIndexOfB, containsB]
  | cons c rest ih =>
    cases h : lastIndexOfB rest b with
    | some i =>
      have hany : containsB rest b = true := by
        cases hcb : containsB rest b
        · simp [ih.mpr hcb] at h
        · rfl
      have hb : b ∈ rest := (containsB_true_iff rest b).mp hany
      simp [lastIndexOfB, h, containsB, hany]
      intro _
      exact hb
    | none =>
      have hrest : containsB rest b = false := ih.mp h
      by_cases hc : c = b
      · simp [lastIndexOfB, h, hc, containsB, hrest]
      · simp [lastIndexOfB, h, hc, containsB, hrest]
        exact fun x hx hxb => ((containsB_false_iff rest b).mp hrest) (hxb ▸ hx)

theorem lastIndexOfB_lt (s : GoStr) (b : Nat) :
    ∀ i, lastIndexOfB s b = some i → i < s.length := by
  induction s with
  | nil => intro i h; simp [lastIndexOfB] at h
  | cons c rest ih =>
    intro i h
    unfold lastIndexOfB at h
    cases hr : lastIndexOfB rest b with
    | some j =>
      rw [hr] at h
      simp at h
      have := ih j hr
      simp [← h]
      omega
    | none =>
      rw [hr] at h
      by_cases hc : c = b <;> simp [hc] at h
      simp [← h]

theorem lastIndexOfB_append_cons (pre post : GoStr) (b : Nat)
    (h : containsB post b = false) :
    lastIndexOfB (pre ++ b :: post) b = some pre.length := by
  induction pre with
  | nil =>
    have hpost : lastIndexOfB post b = none := (lastIndexOfB_none_iff post b).mpr h
    simp [lastIndexOfB, hpost]
  | cons c rest ih =>
    show (match lastIndexOfB (rest ++ b :: post) b with
      | some i => some (i + 1)
      | none => if c = b then some 0 else none) = some (rest.length + 1)
    rw [ih]

theorem authKeysAux_fuel (f : Nat) :
    ∀ g key, key.length < f → key.length < g → authKeysAux f key = authKeysAux g key := by
  induction f with
  | zero => intro g key h; omega
  | succ f ih =>
    intro g key hf hg
    cases g with
    | zero => omega
    | succ g =>
      unfold authKeysAux
      cases h : lastIndexOfB key 47 with
      | none => rfl
      | some i =>
        have hi := lastIndexOfB_lt key 47 i h
        have hlen : (key.take i).length = i := by simp; omega
        have h1 : (key.take i).length < f := by omega
        have h2 : (key.take i).length < g := by omega
        exact congrArg (key :: ·) (ih g (key.take i) h1 h2)

theorem authKeysForKey_no_slash (key : GoStr) (h : containsB key 47 = false) :
    authKeysForKey key = [key] := by
  unfold authKeysForKey authKeysAux
  rw [(lastIndexOfB_none_iff key 47).mpr h]

theorem authKeysForKey_cons_decomp (pre post : GoStr) (h : containsB post 47 = false) :
    authKeysForKey (pre ++ 47 :: post) = (pre ++ 47 :: post) :: authKeysForKey pre := by
  unfold authKeysForKey
  conv_lhs => rw [show (pre ++ 47 :: post).length + 1 = (pre ++ 47 :: post).length + 1 from rfl]
  unfold authKeysAux
  rw [lastIndexOfB_append_cons pre post 47 h]
  simp only [List.take_left]
  congr 1
  exact authKeysAux_fuel ((pre ++ 47 :: post).length) (pre.length + 1) pre
    (by simp only [List.length_append, List.length_cons]; omega) (by omega)

theorem authKeysForKey_cons (key : GoStr) : ∃ rest, authKeysForKey key = key :: rest := by
  unfold authKeysForKey authKeysAux
  cases h : lastIndexOfB key 47 with
  | none => exact ⟨[], rfl⟩
  | some i => exact ⟨_, rfl⟩

theorem containsB_decomp_last (s : GoStr) (b : Nat) (h : containsB s b = true) :
    ∃ pre post, s = pre ++ b :: post ∧ containsB post b = false := by
  induction s with
  | nil => simp [containsB] at h
  | cons c rest ih =>
    cases hr : containsB rest b with
    | true =>
      obtain ⟨pre, post, heq, hpost⟩ := ih hr
      exact ⟨c :: pre, post, by simp [heq], hpost⟩
    | false =>
      have hb : b ∈ c :: rest := (containsB_true_iff _ _).mp h
      have hc : c = b := by
        rcases List.mem_cons.mp hb with h1 | h1
        · exact h1.symm
        · exact absurd h1 ((containsB_false_iff _ _).mp hr)
      exact ⟨[], rest, by simp [hc], hr⟩

theorem indexOfB_append_left (pre rest : GoStr) (b : Nat) :
    ∀ j, indexOfB pre b = some j → indexOfB (pre ++ rest) b = some j := by
  induction pre with
  | nil => intro j h; simp [indexOfB] at h
  | cons c pr ih =>
    intro j h
    by_cases hc : c = b
    · simp [indexOfB, hc] at h ⊢
      exact h
    · simp [indexOfB, hc] at h ⊢
      obtain ⟨i, hi, hij⟩ := h
      exact ⟨i, ih i hi, hij⟩

theorem indexOfB_some_of_contains (s : GoStr) (b : Nat) (h : containsB s b = true) :
    ∃ i, indexOfB s b = some i := by
  cases hi : indexOfB s b with
  | none => rw [(indexOfB_none_iff s b).mp hi] at h; exact absurd h (by simp)
  | some i => exact ⟨i, rfl⟩

theorem registryOf_append_cons (pre post : GoStr) :
    registryOf (pre ++ 47 :: post) = registryOf pre := by
  cases hc : containsB pre 47 with
  | false =>
    have h1 : indexOfB (pre ++ 47 :: post) 47 = some pre.length :=
      indexOfB_append_cons pre post 47 hc
    have h2 : indexOfB pre 47 = none := (indexOfB_none_iff pre 47).mpr hc
    simp [registryOf, h1, h2, List.take_left]
  | true =>
    obtain ⟨j, hj⟩ := indexOfB_some_of_contains pre 47 hc
    have hjlt : j < pre.length := by
      have := (indexOfB_some_decomp pre 47 j hj).1
      by_contra hge
      rw [List.take_of_length_le (by omega), List.drop_eq_nil_of_le (by omega)] at this
      have := congrArg List.length this
      simp at this
    have h1 : indexOfB (pre ++ 47 :: post) 47 = some j := indexOfB_append_left pre _ 47 j hj
    simp [registryOf, h1, hj]
    omega

theorem authKeysForKey_getLast (key : GoStr) :
    (authKeysForKey key).getLast? = some (registryOf key) := by
  suffices H : ∀ n key2, List.length key2 ≤ n →
      (authKeysForKey key2).getLast? = some (registryOf key2) from H key.length key le_rfl
  intro n
  induction n with
  | zero =>
    intro key2 hk
    have : key2 = [] := List.length_eq_zero.mp (by omega)
    subst this
    simp [authKeysForKey, authKeysAux, lastIndexOfB, registryOf, indexOfB]
  | succ n ih =>
    intro key2 hk
    cases hc : containsB key2 47 with
    | false =>
      rw [authKeysForKey_no_slash key2 hc]
      have : indexOfB key2 47 = none := (indexOfB_none_iff key2 47).mpr hc
      simp [registryOf, this]
    | true =>
      obtain ⟨pre, post, heq, hpost⟩ := containsB_decomp_last key2 47 hc
      subst heq
      rw [authKeysForKey_cons_decomp pre post hpost]
      obtain ⟨rest, hrest⟩ := authKeysForKey_cons pre
      rw [hrest, List.getLast?_cons_cons, ← hrest]
      have hlen : pre.length ≤ n := by
        have : (pre ++ 47 :: post).length ≤ n + 1 := hk
        simp at this
        omega
      rw [ih pre hlen, registryOf_append_cons]

/-! ### Lemmas about firstHit -/

theorem firstHit_append (m : GoMap dockerAuthConfig) (ks1 : List GoStr) (k : GoStr)
    (ks2 : List GoStr) (v : dockerAuthConfig)
    (h1 : ∀ k2 ∈ ks1, mapGet m k2 = none) (h2 : mapGet m k = some v) :
    firstHit m (ks1 ++ k :: ks2) = some (k, v) := by
  induction ks1 with
  | nil => simp [firstHit, h2]
  | cons a ks ih =>
    have ha : mapGet m a = none := h1 a (by simp)
    simp only [List.cons_append, firstHit, ha]
    exact ih (fun k2 hk2 => h1 k2 (by simp [hk2]))

theorem firstHit_of_empty (ks : List GoStr) : firstHit (some []) ks = none := by
  induction ks with
  | nil => rfl
  | cons a ks ih => simp [firstHit, mapGet, lookupA, ih]

/-! ### Claim C2 -/

/-- Claim C2: the candidate file-key list is built best match first: for a
modern file the key itself followed by successive truncations at the last
slash down to the bare registry, for a legacy file the registry only; the
candidates are probed in that order and the first existing auths entry is
decoded and returned before any normalization fallback pass. -/
theorem candidate_key_order (E : ExtHelpers) (key registry : GoStr) (p : authPath)
    (auths : dockerConfigFile) :
    (containsB key 47 = false → authKeysForKey key = [key]) ∧
    (∀ pre post, containsB post 47 = false →
      authKeysForKey (pre ++ 47 :: post) = (pre ++ 47 :: post) :: authKeysForKey pre) ∧
    (authKeysForKey key).head? = some key ∧
    (authKeysForKey key).getLast? = some (registryOf key) ∧
    (∀ ks1 k ks2 v, mapGet auths.credHelpers registry = none →
      p.legacyFormat = false →
      authKeysForKey key = ks1 ++ k :: ks2 →
      (∀ k2 ∈ ks1, mapGet auths.authConfigs k2 = none) →
      mapGet auths.authConfigs k = some v →
      findCredentialsInParsed E key registry p auths = decodeDockerAuth p.path k v) ∧
    (∀ v, mapGet auths.credHelpers registry = none → p.legacyFormat = true →
      mapGet auths.authConfigs registry = some v →
      findCredentialsInParsed E key registry p auths = decodeDockerAuth p.path registry v) := by
  refine ⟨authKeysForKey_no_slash key, authKeysForKey_cons_decomp, ?_,
    authKeysForKey_getLast key, ?_, ?_⟩
  · obtain ⟨rest, hrest⟩ := authKeysForKey_cons key
    simp [hrest]
  · intro ks1 k ks2 v hch hleg hsplit hnone hk
    have hfh := firstHit_append auths.authConfigs ks1 k ks2 v hnone hk
    rw [← hsplit] at hfh
    simp [findCredentialsInParsed, hch, hleg, hfh]
  · intro v hch hleg hv
    have hfh : firstHit auths.authConfigs [registry] = some (registry, v) := by
      simp [firstHit, hv]
    simp [findCredentialsInParsed, hch, hleg, hfh]

theorem candidate_key_order_witness :
    findCredentialsInParsed trivialExt (str "quay.io/team/img") (str "quay.io")
      ⟨str "/a.json", false⟩ ⟨some [(str "quay.io", ⟨str "x", []⟩)], some []⟩ =
      decodeDockerAuth (str "/a.json") (str "quay.io") ⟨str "x", []⟩ :=
  (candidate_key_order trivialExt (str "quay.io/team/img") (str "quay.io")
      ⟨str "/a.json", false⟩ ⟨some [(str "quay.io", ⟨str "x", []⟩)], some []⟩).2.2.2.2.1
    [str "quay.io/team/img", str "quay.io/team"] (str "quay.io") [] ⟨str "x", []⟩
    rfl rfl (by decide) (by decide) rfl

/-! ### base64 round trip -/

theorem b64val_b64char : ∀ s, s < 64 → b64val (b64char s) = some s := by decide

theorem b64char_ne_61 : ∀ s, s < 64 → b64char s ≠ 61 := by decide

theorem b64_roundtrip : ∀ l : List Nat, (∀ x ∈ l, x < 256) →
    b64decode (b64encode l) = some l
  | [], _ => rfl
  | [b], h => by
    have hb : b < 256 := h b (by simp)
    have h1 : b / 4 < 64 := by omega
    have h2 : b % 4 * 16 < 64 := by omega
    show b64decode [b64char (b / 4), b64char (b % 4 * 16), 61, 61] = some [b]
    unfold b64decode
    rw [b64val_b64char _ h1, b64val_b64char _ h2]
    simp
    omega
  | [b, c], h => by
    have hb : b < 256 := h b (by simp)
    have hc : c < 256 := h c (by simp)
    have h1 : b / 4 < 64 := by omega
    have h2 : b % 4 * 16 + c / 16 < 64 := by omega
    have h3 : c % 16 * 4 < 64 := by omega
    show b64decode
      [b64char (b / 4), b64char (b % 4 * 16 + c / 16), b64char (c % 16 * 4), 61] =
      some [b, c]
    unfold b64decode
    rw [b64val_b64char _ h1, b64val_b64char _ h2, b64val_b64char _ h3]
    simp [b64char_ne_61 _ h3]
    constructor <;> omega
  | b :: c :: d :: rest, h => by
    have hb : b < 256 := h b (by simp)
    have hc : c < 256 := h c (by simp)
    have hd : d < 256 := h d (by simp)
    have h1 : b / 4 < 64 := by omega
    have h2 : b % 4 * 16 + c / 16 < 64 := by omega
    have h3 : c % 16 * 4 + d / 64 < 64 := by omega
    have h4 : d % 64 < 64 := by omega
    have hrest := b64_roundtrip rest (fun x hx => h x (by simp [hx]))
    show b64decode (b64char (b / 4) :: b64char (b % 4 * 16 + c / 16) ::
      b64char (c % 16 * 4 + d / 64) :: b64char (d % 64) :: b64encode rest) =
      some (b :: c :: d :: rest)
    unfold b64decode
    rw [b64val_b64char _ h1, b64val_b64char _ h2, b64val_b64char _ h3, b64val_b64char _ h4]
    simp [b64char_ne_61 _ h3, b64char_ne_61 _ h4, hrest]
    refine ⟨by omega, by omega, by omega⟩

/-! ### Lemmas about cutB and trimB -/

theorem cutB_append_cons (u p : GoStr) (b : Nat) (h : containsB u b = false) :
    cutB (u ++ b :: p) b = (u, p, true) := by
  unfold cutB
  rw [indexOfB_append_cons u p b h]
  have h1 : (u ++ b :: p).take u.length = u := List.take_left u _
  have h2 : (u ++ b :: p).drop (u.length + 1) = p := by
    have heq : u ++ b :: p = (u ++ [b]) ++ p := by simp
    have hlen : u.length + 1 = (u ++ [b]).length := by simp
    rw [heq, hlen, List.drop_left]
  show ((u ++ b :: p).take u.length, (u ++ b :: p).drop (u.length + 1), true) = (u, p, true)
  rw [h1, h2]

theorem dropWhile_eqb_eq_self (l : GoStr) (b : Nat) (h : l.head? ≠ some b) :
    l.dropWhile (fun c => c = b) = l := by
  cases l with
  | nil => rfl
  | cons c rest =>
    have hc : ¬(c = b) := fun hcb => h (by simp [hcb])
    simp [List.dropWhile_cons, hc]

theorem trimB_eq_self (p : GoStr) (b : Nat) (h1 : p.head? ≠ some b)
    (h2 : p.getLast? ≠ some b) : trimB p b = p := by
  unfold trimB
  rw [dropWhile_eqb_eq_self p b h1]
  rw [dropWhile_eqb_eq_self p.reverse b (by rw [List.head?_reverse]; exact h2)]
  exact List.reverse_reverse p

theorem head_dropWhile_ne (l : GoStr) (b : Nat) :
    (l.dropWhile (fun c => c = b)).head? ≠ some b := by
  induction l with
  | nil => simp
  | cons c rest ih =>
    by_cases hc : c = b
    · simpa [List.dropWhile_cons, hc] using ih
    · simp [List.dropWhile_cons, hc]

theorem takeWhile_eqb_replicate (l : GoStr) (b : Nat) :
    l.takeWhile (fun c => c = b) =
      List.replicate (l.takeWhile (fun c => c = b)).length b := by
  have hmem : ∀ x ∈ l.takeWhile (fun c => c = b), x = b := by
    intro x hx
    simpa using List.mem_takeWhile_imp hx
  exact List.eq_replicate_of_mem hmem

theorem reverse_takeWhile_replicate (l : GoStr) (b : Nat) :
    (l.takeWhile (fun c => c = b)).reverse =
      List.replicate (l.takeWhile (fun c => c = b)).length b := by
  conv_lhs => rw [takeWhile_eqb_replicate l b]
  rw [List.reverse_replicate]

theorem trimB_decomp (s : GoStr) (b : Nat) :
    ∃ a c, s = List.replicate a b ++ trimB s b ++ List.replicate c b ∧
      (trimB s b).head? ≠ some b ∧ (trimB s b).getLast? ≠ some b := by
  have ht1 := head_dropWhile_ne s b
  have e1 : s = s.takeWhile (fun c => c = b) ++ s.dropWhile (fun c => c = b) :=
    (List.takeWhile_append_dropWhile _ s).symm
  have e3 : (s.dropWhile (fun c => c = b)).reverse =
      (s.dropWhile (fun c => c = b)).reverse.takeWhile (fun c => c = b) ++
      (s.dropWhile (fun c => c = b)).reverse.dropWhile (fun c => c = b) :=
    (List.takeWhile_append_dropWhile _ _).symm
  have e4 := congrArg List.reverse e3
  rw [List.reverse_reverse, List.reverse_append] at e4
  have e2 : s.dropWhile (fun c => c = b) =
      trimB s b ++ List.replicate
        ((s.dropWhile (fun c => c = b)).reverse.takeWhile (fun c => c = b)).length b := by
    conv_lhs => rw [e4]
    rw [reverse_takeWhile_replicate]
    rfl
  refine ⟨(s.takeWhile (fun c => c = b)).length,
    ((s.dropWhile (fun c => c = b)).reverse.takeWhile (fun c => c = b)).length, ?_, ?_, ?_⟩
  · conv_lhs => rw [e1, e2, takeWhile_eqb_replicate s b]
    rw [List.append_assoc]
  · intro hx
    have hne : trimB s b ≠ [] := by
      intro hnil
      rw [hnil] at hx
      simp at hx
    obtain ⟨x, xs, hcase⟩ := List.exists_cons_of_ne_nil hne
    rw [hcase] at hx e2
    simp at hx
    have hhead : (s.dropWhile (fun c => c = b)).head? = some x := by rw [e2]; rfl
    exact ht1 (hx ▸ hhead)
  · show ((s.dropWhile (fun c => c = b)).reverse.dropWhile
      (fun c => c = b)).reverse.getLast? ≠ some b
    rw [List.getLast?_reverse]
    exact head_dropWhile_ne _ b

/-! ### Claim C1 -/

/-- Claim C1, as stated, is false: with a username containing a colon, the
file-backend round trip splits the stored auth string at its first colon and
returns a different username and password. -/
theorem setThenGet_username_colon_cex :
    findCredentialsInParsed trivialExt (str "r") (str "r") ⟨str "/a.json", false⟩
      (setCredentialsEditor trivialExt false (str "r") (str "a:b") (str "c")
        ⟨some [], none⟩ []).1.2.2.2 =
      .ok ⟨str "a", str "b:c", []⟩ ∧
    (⟨str "a", str "b:c", []⟩ : DockerAuthConfig) ≠ ⟨str "a:b", str "c", []⟩ :=
  ⟨rfl, by decide⟩

/-- Claim C1 (amended): for every valid key, username without a colon, and
password without leading or trailing NUL bytes, storing through the file
backend of SetCredentials into an empty auth document and looking the key up
again returns exactly (username, password, empty identity token). -/
theorem setThenGet_roundtrip (E : ExtHelpers) (key username password : GoStr)
    (p : authPath) (ns : Bool)
    (hval : validateKey key = .ok ns)
    (hleg : p.legacyFormat = false)
    (hu : containsB username 58 = false)
    (hpw1 : password.head? ≠ some 0) (hpw2 : password.getLast? ≠ some 0)
    (hbytes : ∀ x ∈ username ++ 58 :: password, x < 256) :
    (setCredentialsEditor E ns key username password ⟨some [], none⟩ []).1.1 = true ∧
    findCredentialsInParsed E key (registryOf key) p
      (setCredentialsEditor E ns key username password ⟨some [], none⟩ []).1.2.2.2 =
      .ok ⟨username, password, []⟩ := by
  have hed : setCredentialsEditor E ns key username password ⟨some [], none⟩ [] =
      ((true, [], none,
        ⟨some [(key, ⟨b64encode (username ++ 58 :: password), []⟩)], none⟩), []) := rfl
  rw [hed]
  refine ⟨rfl, ?_⟩
  obtain ⟨rest, hrest⟩ := authKeysForKey_cons key
  unfold findCredentialsInParsed
  simp only [mapGet, hleg]
  rw [hrest]
  have hfh : firstHit (some [(key, ⟨b64encode (username ++ 58 :: password), []⟩)])
      (key :: rest) = some (key, ⟨b64encode (username ++ 58 :: password), []⟩) := by
    simp [firstHit, mapGet, lookupA]
  simp only [if_true]
  rw [hfh]
  show decodeDockerAuth p.path key ⟨b64encode (username ++ 58 :: password), []⟩ =
    Except.ok ⟨username, password, []⟩
  unfold decodeDockerAuth
  rw [b64_roundtrip (username ++ 58 :: password) hbytes]
  show (if (cutB (username ++ 58 :: password) 58).2.2 = false then
      Except.ok emptyDockerAuthConfig
    else Except.ok ⟨(cutB (username ++ 58 :: password) 58).1,
      trimB (cutB (username ++ 58 :: password) 58).2.1 0, ([] : GoStr)⟩) =
    Except.ok ⟨username, password, []⟩
  rw [cutB_append_cons username password 58 hu]
  simp [trimB_eq_self password 0 hpw1 hpw2]

theorem setThenGet_roundtrip_witness :
    (setCredentialsEditor trivialExt false (str "quay.io") (str "alice") (str "s3cr3t")
      ⟨some [], none⟩ []).1.1 = true ∧
    findCredentialsInParsed trivialExt (str "quay.io") (registryOf (str "quay.io"))
      ⟨str "/a.json", false⟩
      (setCredentialsEditor trivialExt false (str "quay.io") (str "alice") (str "s3cr3t")
        ⟨some [], none⟩ []).1.2.2.2 =
      .ok ⟨str "alice", str "s3cr3t", []⟩ :=
  setThenGet_roundtrip trivialExt (str "quay.io") (str "alice") (str "s3cr3t")
    ⟨str "/a.json", false⟩ false rfl rfl (by decide) (by decide) (by decide) (by decide)

/-! ### Claim C5 -/

/-- Claim C5, as stated, is false: strings.Trim removes leading NUL bytes from
the password as well, not only trailing ones.  At a password of byte shape
NUL p NUL, the decoder returns p, not NUL p. -/
theorem decode_leading_nul_cex :
    decodeDockerAuth [] [] ⟨b64encode [117, 58, 0, 112, 0], []⟩ =
      .ok ⟨[117], [112], []⟩ ∧ ([112] : GoStr) ≠ [0, 112] :=
  ⟨rfl, by decide⟩

/-- Claim C5 (amended): when the decoded auth string contains a colon, the
returned password is the part after the first colon with both leading and
trailing NUL bytes removed (all other bytes preserved), and the identity
token of the entry is retained. -/
theorem decode_password_trim (path key : GoStr) (conf : dockerAuthConfig)
    (d u rest : GoStr)
    (hdec : b64decode conf.auth = some d)
    (hcut : cutB d 58 = (u, rest, true)) :
    ∃ a c pw, rest = List.replicate a 0 ++ pw ++ List.replicate c 0 ∧
      pw.head? ≠ some 0 ∧ pw.getLast? ≠ some 0 ∧
      decodeDockerAuth path key conf = .ok ⟨u, pw, conf.identityToken⟩ := by
  obtain ⟨a, c, hsplit, hh, hl⟩ := trimB_decomp rest 0
  refine ⟨a, c, trimB rest 0, hsplit, hh, hl, ?_⟩
  unfold decodeDockerAuth
  rw [hdec]
  show (if (cutB d 58).2.2 = false then Except.ok emptyDockerAuthConfig
    else Except.ok ⟨(cutB d 58).1, trimB (cutB d 58).2.1 0, conf.identityToken⟩) =
    Except.ok ⟨u, trimB rest 0, conf.identityToken⟩
  rw [hcut]
  rfl

theorem decode_password_trim_witness :
    ∃ a c pw, (str "p" : GoStr) = List.replicate a 0 ++ pw ++ List.replicate c 0 ∧
      pw.head? ≠ some 0 ∧ pw.getLast? ≠ some 0 ∧
      decodeDockerAuth [] [] ⟨b64encode (str "u:p"), []⟩ = .ok ⟨str "u", pw, []⟩ :=
  decode_password_trim [] [] ⟨b64encode (str "u:p"), []⟩ (str "u:p") (str "u") (str "p")
    (by decide) (by decide)

/-! ### Claim C4 -/

/-- Claim C4, as stated, is false: for an absent file, parse initializes the
auths map but returns with the credHelpers map still nil (the Go zero value);
the normalization that would make credHelpers a non-nil empty map runs only on
the successful-unmarshal path, which the absent-file early return skips. -/
theorem parse_absent_nil_credHelpers_cex :
    authPathParse (fun _ => .absent) ⟨str "/missing/auth.json", false⟩ =
      .ok ⟨some [], none⟩ ∧ (none : GoMap GoStr) ≠ some [] :=
  ⟨rfl, by decide⟩

/-- Claim C4 (amended): for every path whose file does not exist, parse
returns successfully with an empty document in which the auths map is empty
and non-nil while the credHelpers map is left nil (hence empty for readers). -/
theorem parse_absent_empty (fs : GoStr → ReadResult) (p : authPath)
    (h : fs p.path = .absent) :
    authPathParse fs p = .ok ⟨some [], none⟩ := by
  unfold authPathParse
  rw [h]

theorem parse_absent_empty_witness :
    authPathParse (fun _ => ReadResult.absent) ⟨str "/x", true⟩ = .ok ⟨some [], none⟩ :=
  parse_absent_empty (fun _ => ReadResult.absent) ⟨str "/x", true⟩ rfl

/-! ### Claim C9 -/

/-- Claim C9: an existing zero-byte file (and in general any contents the JSON
reader rejects) makes parse fail, while an absent file at the same path parses
to an empty document; consequently the auth-file lookup loop silently skips an
absent file but aborts with an error at an existing empty file. -/
theorem parse_empty_vs_absent :
    (∀ path legacy, authPathParse (fun _ => .content []) ⟨path, legacy⟩ =
      .error (.jsonUnmarshal path)) ∧
    (∀ raw path, jsonParseTop raw = none →
      authPathParse (fun _ => .content raw) ⟨path, false⟩ =
        .error (.jsonUnmarshal path)) ∧
    (∀ fs p, fs p.path = .absent → authPathParse fs p = .ok ⟨some [], none⟩) ∧
    (∀ E fs key registry p rest e, authPathParse fs p = .error e →
      getCredsFromFilesLoop E fs key registry (p :: rest) =
        .error (.readingJSONFile p.path e)) ∧
    (∀ E fs key registry p rest, fs p.path = .absent →
      getCredsFromFilesLoop E fs key registry (p :: rest) =
        getCredsFromFilesLoop E fs key registry rest) := by
  refine ⟨?_, ?_, ?_, ?_, ?_⟩
  · intro path legacy
    cases legacy <;> rfl
  · intro raw path h
    have hu : unmarshalConfigFile raw = .error () := by
      unfold unmarshalConfigFile
      rw [h]
    simp [authPathParse, hu]
  · intro fs p h
    unfold authPathParse
    rw [h]
  · intro E fs key registry p rest e h
    simp [getCredsFromFilesLoop, findCredentialsInFile, h]
  · intro E fs key registry p rest h
    have hp : authPathParse fs p = .ok ⟨some [], none⟩ := by
      unfold authPathParse
      rw [h]
    have hfind : findCredentialsInFile E fs key registry p = .ok emptyDockerAuthConfig := by
      unfold findCredentialsInFile
      rw [hp]
      unfold findCredentialsInParsed
      simp [mapGet, firstHit_of_empty]
    simp [getCredsFromFilesLoop, hfind]

theorem parse_empty_vs_absent_witness :
    getCredsFromFilesLoop trivialExt (fun _ => ReadResult.absent) (str "r") (str "r")
      [⟨str "/a", false⟩] =
      getCredsFromFilesLoop trivialExt (fun _ => ReadResult.absent) (str "r") (str "r") [] :=
  parse_empty_vs_absent.2.2.2.2 trivialExt (fun _ => ReadResult.absent) (str "r") (str "r")
    ⟨str "/a", false⟩ [] rfl

/-! ### Claim C7 -/

/-- Claim C7: when the resolved primary path is not user-specified (including
when path resolution errored and the primary is dropped), getAuthFilePaths
appends exactly the XDG config-home path (modern), the docker config path
(modern: DOCKER_CONFIG/config.json if DOCKER_CONFIG is set, else
home/.docker/config.json) and home/.dockercfg (legacy), in this order, after
the primary path; when the primary path is user-specified, no fallbacks are
appended. -/
theorem auth_file_paths_order (sys : Option SystemContext) (env : Env) :
    (∀ p, getPathToAuthWithOS sys env = .ok (p, false) →
      getAuthFilePaths sys env = [p,
        newAuthPathDefault (goJoin (if env.xdgConfigHome = [] then
            goJoin env.homeDir (str ".config") else env.xdgConfigHome)
          (str "containers/auth.json")),
        (if env.dockerConfig ≠ [] then
          newAuthPathDefault (goJoin env.dockerConfig (str "config.json"))
        else newAuthPathDefault (goJoin env.homeDir (str ".docker/config.json"))),
        ⟨goJoin env.homeDir (str ".dockercfg"), true⟩]) ∧
    (∀ e, getPathToAuthWithOS sys env = .error e →
      getAuthFilePaths sys env = [
        newAuthPathDefault (goJoin (if env.xdgConfigHome = [] then
            goJoin env.homeDir (str ".config") else env.xdgConfigHome)
          (str "containers/auth.json")),
        (if env.dockerConfig ≠ [] then
          newAuthPathDefault (goJoin env.dockerConfig (str "config.json"))
        else newAuthPathDefault (goJoin env.homeDir (str ".docker/config.json"))),
        ⟨goJoin env.homeDir (str ".dockercfg"), true⟩]) ∧
    (∀ p, getPathToAuthWithOS sys env = .ok (p, true) →
      getAuthFilePaths sys env = [p]) := by
  refine ⟨?_, ?_, ?_⟩
  · intro p h
    simp [getAuthFilePaths, h]
  · intro e h
    simp [getAuthFilePaths, h]
  · intro p h
    simp [getAuthFilePaths, h]

theorem auth_file_paths_order_witness :
    getAuthFilePaths (some sampleSys) sampleEnv = [⟨str "/af.json", false⟩] :=
  (auth_file_paths_order (some sampleSys) sampleEnv).2.2 ⟨str "/af.json", false⟩ rfl

/-! ### Claim C8 -/

theorem setCredsLoop_all_external (E : ExtHelpers) (W : World)
    (sys : Option SystemContext) (key username password : GoStr) :
    ∀ (helpers : List GoStr) (errs : List Err) (tr : List StoreCall),
      (∀ h ∈ helpers, h ≠ authenticationFileHelper) →
      setCredsLoop E W sys true key username password helpers errs tr =
        (if (errs ++ helpers.map (fun h => Err.unsupportedNamespace h)).isEmpty then
          .ok []
         else .error (.multi (errs ++ helpers.map (fun h => Err.unsupportedNamespace h))),
         tr) := by
  intro helpers
  induction helpers with
  | nil =>
    intro errs tr _
    unfold setCredsLoop
    rw [List.map_nil, List.append_nil]
  | cons h hs ih =>
    intro errs tr hext
    have hne : h ≠ authenticationFileHelper := hext h (by simp)
    unfold setCredsLoop
    simp only [hne, if_false, if_true, ite_false, ite_true]
    rw [ih (errs ++ [Err.unsupportedNamespace h]) tr (fun h2 hh2 => hext h2 (by simp [hh2]))]
    simp

/-- Claim C8: for every namespaced key and a non-empty helper chain consisting
only of external helpers, SetCredentials fails with one NamespaceUnsupported
error per helper, and no helper store is invoked (the store-call trace is
empty). -/
theorem set_namespaced_external_fails (E : ExtHelpers) (W : World)
    (sys : Option SystemContext) (key username password : GoStr) (helpers : List GoStr)
    (hval : validateKey key = .ok true)
    (hext : ∀ h ∈ helpers, h ≠ authenticationFileHelper)
    (hne : helpers ≠ []) :
    setCredentials E W sys (.ok helpers) key username password =
      (.error (.multi (helpers.map (fun h => Err.unsupportedNamespace h))), []) := by
  unfold setCredentials
  rw [hval]
  show setCredsLoop E W sys true key username password helpers [] [] =
    (.error (.multi (helpers.map (fun h => Err.unsupportedNamespace h))), [])
  rw [setCredsLoop_all_external E W sys key username password helpers [] [] hext]
  have hmap : (helpers.map (fun h => Err.unsupportedNamespace h)).isEmpty = false := by
    cases helpers with
    | nil => exact absurd rfl hne
    | cons a l => rfl
  simp [hmap]

theorem set_namespaced_external_fails_witness :
    setCredentials trivialExt sampleWorld none (.ok [str "h1", str "h2"])
      (str "quay.io/ns") (str "u") (str "p") =
      (.error (.multi [.unsupportedNamespace (str "h1"),
        .unsupportedNamespace (str "h2")]), []) :=
  set_namespaced_external_fails trivialExt sampleWorld none (str "quay.io/ns")
    (str "u") (str "p") [str "h1", str "h2"] rfl (by decide) (by decide)

/-! ### Claim C10 -/

/-- Claim C10: an invalid base64 auth field on the first matching candidate
makes decodeDockerAuth, findCredentialsInFile and the file-iteration loop fail
(no fallthrough to later candidates, the fallback pass, or later files), and
GetCredentials for that key fails with the aggregated error when the file
helper is the only backend; a later external helper that returns a non-empty
record masks the error with success. -/
theorem bad_base64_aborts_lookup :
    (∀ path key conf, b64decode conf.auth = none →
      decodeDockerAuth path key conf = .error (.base64Corrupt conf.auth)) ∧
    b64decode (str "!!!") = none ∧
    (∀ (E : ExtHelpers) key registry p auths ks1 k ks2 v,
      mapGet auths.credHelpers registry = none → p.legacyFormat = false →
      authKeysForKey key = ks1 ++ k :: ks2 →
      (∀ k2 ∈ ks1, mapGet auths.authConfigs k2 = none) →
      mapGet auths.authConfigs k = some v → b64decode v.auth = none →
      findCredentialsInParsed E key registry p auths = .error (.base64Corrupt v.auth)) ∧
    (∀ (E : ExtHelpers) fs key registry p rest e,
      findCredentialsInFile E fs key registry p = .error e →
      getCredsFromFilesLoop E fs key registry (p :: rest) = .error e) ∧
    (∀ (E : ExtHelpers) (W : World) sys key b e, validateKey key = .ok b →
      sys.bind (fun s => s.dockerAuthConfig) = none →
      getCredsFromFilesLoop E W.fs key (registryOf key) (getAuthFilePaths sys W.env) =
        .error e →
      getCredentialsWithHomeDir E W sys (.ok [authenticationFileHelper]) key =
        .error (.multi [e]) ∧
      (∀ h c, h ≠ authenticationFileHelper →
        getAuthFromCredHelper E h (registryOf key) = .ok c →
        c ≠ emptyDockerAuthConfig →
        getCredentialsWithHomeDir E W sys (.ok [authenticationFileHelper, h]) key =
          .ok c)) := by
  refine ⟨?_, rfl, ?_, ?_, ?_⟩
  · intro path key conf h
    unfold decodeDockerAuth
    rw [h]
  · intro E key registry p auths ks1 k ks2 v hch hleg hsplit hnone hk hbad
    have hfh := firstHit_append auths.authConfigs ks1 k ks2 v hnone hk
    rw [← hsplit] at hfh
    simp [findCredentialsInParsed, hch, hleg, hfh, decodeDockerAuth, hbad]
  · intro E fs key registry p rest e h
    simp [getCredsFromFilesLoop, h]
  · intro E W sys key b e hval hsys hfiles
    constructor
    · unfold getCredentialsWithHomeDir
      rw [hval, hsys]
      unfold getCredsHelperLoop
      simp [hfiles, getCredsHelperLoop]
      rfl
    · intro h c hne hok hcne
      unfold getCredentialsWithHomeDir
      rw [hval, hsys]
      unfold getCredsHelperLoop
      simp [hfiles, hne, hok, hcne, getCredsHelperLoop]
      rfl

theorem bad_base64_aborts_lookup_witness :
    getCredentialsWithHomeDir trivialExt badAuthWorld (some sampleSys)
      (.ok [authenticationFileHelper]) (str "r") =
      .error (.multi [.base64Corrupt (str "!!!")]) :=
  (bad_base64_aborts_lookup.2.2.2.2 trivialExt badAuthWorld (some sampleSys) (str "r")
    false (.base64Corrupt (str "!!!")) rfl rfl rfl).1

/-! ### Lemmas about RemoveAuthentication -/

theorem rfch_multiErr (E : ExtHelpers) (ns : Bool) (key helper : GoStr) (st : RmSt) :
    (removeFromCredHelper E ns key helper st).multiErr.isEmpty = true ↔
      (st.multiErr.isEmpty = true ∧ ¬(ns = false ∧ extEraseFails E key helper)) := by
  unfold removeFromCredHelper deleteAuthFromCredHelper extEraseFails
  cases ns with
  | true => simp
  | false =>
    cases h : E.erase helper key with
    | ok u => simp [h]
    | error msg =>
      by_cases hm : msg = errCredentialsNotFoundMsg
      · simp [h, hm]
      · simp [h, hm]

theorem rfch_loggedIn (E : ExtHelpers) (ns : Bool) (key helper : GoStr) (st : RmSt) :
    (removeFromCredHelper E ns key helper st).isLoggedIn = true ↔
      (st.isLoggedIn = true ∨ (ns = false ∧ extEraseSucceeds E key helper)) := by
  unfold removeFromCredHelper deleteAuthFromCredHelper extEraseSucceeds
  cases ns with
  | true => simp
  | false =>
    cases h : E.erase helper key with
    | ok u => cases u; simp [h]
    | error msg =>
      by_cases hm : msg = errCredentialsNotFoundMsg
      · simp [h, hm]
      · simp [h, hm]

theorem rfch_trace (E : ExtHelpers) (ns : Bool) (key helper : GoStr) (st : RmSt) :
    (∀ x ∈ st.trace, x ∈ (removeFromCredHelper E ns key helper st).trace) ∧
    (ns = false → (helper, key) ∈ (removeFromCredHelper E ns key helper st).trace) := by
  unfold removeFromCredHelper deleteAuthFromCredHelper
  cases ns with
  | true => simp
  | false =>
    cases h : E.erase helper key with
    | ok u =>
      simp [h]
      exact fun a b hab => Or.inl hab
    | error msg =>
      by_cases hm : msg = errCredentialsNotFoundMsg
      · simp [h, hm]
        exact fun a b hab => Or.inl hab
      · simp [h, hm]
        exact fun a b hab => Or.inl hab

theorem fileStep_spec (E : ExtHelpers) (W : World) (sys : Option SystemContext)
    (ns : Bool) (key : GoStr) (st : RmSt) :
    ((removeAuthStep E W sys ns key authenticationFileHelper st).multiErr.isEmpty = true ↔
      (st.multiErr.isEmpty = true ∧ ¬fileStepErrorsSpec E W sys ns key)) ∧
    ((removeAuthStep E W sys ns key authenticationFileHelper st).isLoggedIn = true ↔
      (st.isLoggedIn = true ∨ fileStepDeletesSpec E W sys ns key)) ∧
    (∀ x ∈ st.trace, x ∈ (removeAuthStep E W sys ns key authenticationFileHelper st).trace) := by
  unfold removeAuthStep
  rw [if_pos rfl]
  unfold modifyJSON
  cases hpath : getPathToAuthWithOS sys W.env with
  | error e =>
    refine ⟨?_, ?_, ?_⟩ <;> simp [fileStepErrorsSpec, fileStepDeletesSpec, hpath]
  | ok pu =>
    obtain ⟨p, u⟩ := pu
    dsimp only
    by_cases hleg : p.legacyFormat = true
    · rw [if_pos hleg]
      refine ⟨?_, ?_, ?_⟩ <;> simp [fileStepErrorsSpec, fileStepDeletesSpec, hpath, hleg]
    · rw [if_neg hleg]
      cases hmk : W.mkdirRes with
      | error e =>
        dsimp only
        refine ⟨?_, ?_, ?_⟩ <;>
          simp [fileStepErrorsSpec, fileStepDeletesSpec, hpath, hleg, hmk]
      | ok mu =>
        cases mu
        dsimp only
        cases hparse : authPathParse W.fs p with
        | error e =>
          dsimp only
          refine ⟨?_, ?_, ?_⟩ <;>
            simp [fileStepErrorsSpec, fileStepDeletesSpec, hpath, hleg, hmk, hparse]
        | ok doc =>
          dsimp only
          unfold removeAuthEditor
          cases hch : mapGet doc.credHelpers key with
          | none =>
            dsimp only
            cases hak : mapGet doc.authConfigs key with
            | none =>
              dsimp only
              by_cases hA : st.multiErr.isEmpty = true
              · cases hw : W.writeRes with
                | error we =>
                  refine ⟨?_, ?_, ?_⟩ <;>
                    simp [fileStepErrorsSpec, fileStepDeletesSpec, hpath, hleg, hmk,
                      hparse, hch, hak, hA, hw]
                | ok wu =>
                  cases wu
                  refine ⟨?_, ?_, ?_⟩ <;>
                    simp [fileStepErrorsSpec, fileStepDeletesSpec, hpath, hleg, hmk,
                      hparse, hch, hak, hA, hw]
              · refine ⟨?_, ?_, ?_⟩ <;>
                  simp [fileStepErrorsSpec, fileStepDeletesSpec, hpath, hleg, hmk,
                    hparse, hch, hak, hA]
            | some v =>
              dsimp only
              by_cases hA : st.multiErr.isEmpty = true
              · cases hw : W.writeRes with
                | error we =>
                  refine ⟨?_, ?_, ?_⟩ <;>
                    simp [fileStepErrorsSpec, fileStepDeletesSpec, hpath, hleg, hmk,
                      hparse, hch, hak, hA, hw]
                | ok wu =>
                  cases wu
                  refine ⟨?_, ?_, ?_⟩ <;>
                    simp [fileStepErrorsSpec, fileStepDeletesSpec, hpath, hleg, hmk,
                      hparse, hch, hak, hA, hw]
              · refine ⟨?_, ?_, ?_⟩ <;>
                  simp [fileStepErrorsSpec, fileStepDeletesSpec, hpath, hleg, hmk,
                    hparse, hch, hak, hA]
          | some ih =>
            dsimp only
            have hm1 := rfch_multiErr E ns key ih st
            have hm2 := rfch_loggedIn E ns key ih st
            have hm3 := rfch_trace E ns key ih st
            cases hak : mapGet doc.authConfigs key with
            | none =>
              dsimp only
              by_cases hA : (removeFromCredHelper E ns key ih st).multiErr.isEmpty = true
              · cases hw : W.writeRes with
                | error we =>
                  refine ⟨?_, ?_, ?_⟩ <;>
                    simp [fileStepErrorsSpec, fileStepDeletesSpec, hpath, hleg, hmk,
                      hparse, hch, hak, hA, hw, hm1, hm2]
                  all_goals try exact fun a b hab => hm3.1 (a, b) hab
                  all_goals try (obtain ⟨h1, h2⟩ := hm1.mp hA; exact ⟨by simpa using h1, fun hns hf => h2 ⟨hns, hf⟩⟩)
                  all_goals try (intro h1 h2; exact absurd (hm1.mpr ⟨by simp [h1], fun hc => h2 hc.1 hc.2⟩) hA)
                | ok wu =>
                  cases wu
                  refine ⟨?_, ?_, ?_⟩ <;>
                    simp [fileStepErrorsSpec, fileStepDeletesSpec, hpath, hleg, hmk,
                      hparse, hch, hak, hA, hw, hm1, hm2]
                  all_goals try exact fun a b hab => hm3.1 (a, b) hab
                  all_goals try (obtain ⟨h1, h2⟩ := hm1.mp hA; exact ⟨by simpa using h1, fun hns hf => h2 ⟨hns, hf⟩⟩)
                  all_goals try (intro h1 h2; exact absurd (hm1.mpr ⟨by simp [h1], fun hc => h2 hc.1 hc.2⟩) hA)
              · refine ⟨?_, ?_, ?_⟩ <;>
                  simp [fileStepErrorsSpec, fileStepDeletesSpec, hpath, hleg, hmk,
                    hparse, hch, hak, hA, hm1, hm2]
                all_goals try exact fun a b hab => hm3.1 (a, b) hab
                all_goals try (obtain ⟨h1, h2⟩ := hm1.mp hA; exact ⟨by simpa using h1, fun hns hf => h2 ⟨hns, hf⟩⟩)
                all_goals try (intro h1 h2; exact absurd (hm1.mpr ⟨by simp [h1], fun hc => h2 hc.1 hc.2⟩) hA)
            | some v =>
              dsimp only
              by_cases hA : (removeFromCredHelper E ns key ih st).multiErr.isEmpty = true
              · cases hw : W.writeRes with
                | error we =>
                  refine ⟨?_, ?_, ?_⟩ <;>
                    simp [fileStepErrorsSpec, fileStepDeletesSpec, hpath, hleg, hmk,
                      hparse, hch, hak, hA, hw, hm1, hm2]
                  all_goals try exact fun a b hab => hm3.1 (a, b) hab
                  all_goals try (obtain ⟨h1, h2⟩ := hm1.mp hA; exact ⟨by simpa using h1, fun hns hf => h2 ⟨hns, hf⟩⟩)
                  all_goals try (intro h1 h2; exact absurd (hm1.mpr ⟨by simp [h1], fun hc => h2 hc.1 hc.2⟩) hA)
                | ok wu =>
                  cases wu
                  refine ⟨?_, ?_, ?_⟩ <;>
                    simp [fileStepErrorsSpec, fileStepDeletesSpec, hpath, hleg, hmk,
                      hparse, hch, hak, hA, hw, hm1, hm2]
                  all_goals try exact fun a b hab => hm3.1 (a, b) hab
                  all_goals try (obtain ⟨h1, h2⟩ := hm1.mp hA; exact ⟨by simpa using h1, fun hns hf => h2 ⟨hns, hf⟩⟩)
                  all_goals try (intro h1 h2; exact absurd (hm1.mpr ⟨by simp [h1], fun hc => h2 hc.1 hc.2⟩) hA)
              · refine ⟨?_, ?_, ?_⟩ <;>
                  simp [fileStepErrorsSpec, fileStepDeletesSpec, hpath, hleg, hmk,
                    hparse, hch, hak, hA, hm1, hm2]
                all_goals try exact fun a b hab => hm3.1 (a, b) hab
                all_goals try (obtain ⟨h1, h2⟩ := hm1.mp hA; exact ⟨by simpa using h1, fun hns hf => h2 ⟨hns, hf⟩⟩)
                all_goals try (intro h1 h2; exact absurd (hm1.mpr ⟨by simp [h1], fun hc => h2 hc.1 hc.2⟩) hA)

set_option maxHeartbeats 1600000 in
theorem removeAuthLoop_spec (E : ExtHelpers) (W : World) (sys : Option SystemContext)
    (ns : Bool) (key : GoStr) :
    ∀ (helpers : List GoStr) (st : RmSt),
      ((removeAuthLoop E W sys ns key helpers st).multiErr.isEmpty = true ↔
        (st.multiErr.isEmpty = true ∧ ¬removeAnyErrorSpec E W sys ns key helpers)) ∧
      ((removeAuthLoop E W sys ns key helpers st).isLoggedIn = true ↔
        (st.isLoggedIn = true ∨ removeDeletesSpec E W sys ns key helpers)) ∧
      (∀ x ∈ st.trace, x ∈ (removeAuthLoop E W sys ns key helpers st).trace) ∧
      (ns = false → ∀ h ∈ helpers, h ≠ authenticationFileHelper →
        (h, key) ∈ (removeAuthLoop E W sys ns key helpers st).trace) := by
  intro helpers
  induction helpers with
  | nil =>
    intro st
    refine ⟨?_, ?_, ?_, ?_⟩ <;>
      simp [removeAuthLoop, removeAnyErrorSpec, removeDeletesSpec]
  | cons h hs ih =>
    intro st
    have hIH := ih (removeAuthStep E W sys ns key h st)
    have hAny : removeAnyErrorSpec E W sys ns key (h :: hs) ↔
        (removeStepErrorsSpec E W sys ns key h ∨
          removeAnyErrorSpec E W sys ns key hs) := by
      simp [removeAnyErrorSpec]
    have hDel : removeDeletesSpec E W sys ns key (h :: hs) ↔
        (removeStepDeletesSpec E W sys ns key h ∨
          removeDeletesSpec E W sys ns key hs) := by
      simp [removeDeletesSpec]
    by_cases hf : h = authenticationFileHelper
    · subst hf
      have S := fileStep_spec E W sys ns key st
      have hSE : removeStepErrorsSpec E W sys ns key authenticationFileHelper ↔
          fileStepErrorsSpec E W sys ns key := by
        simp [removeStepErrorsSpec]
      have hSD : removeStepDeletesSpec E W sys ns key authenticationFileHelper ↔
          fileStepDeletesSpec E W sys ns key := by
        simp [removeStepDeletesSpec]
      refine ⟨?_, ?_, ?_, ?_⟩
      · simp only [removeAuthLoop]
        rw [hIH.1, S.1, hAny, hSE, not_or]
        exact and_assoc
      · simp only [removeAuthLoop]
        rw [hIH.2.1, S.2.1, hDel, hSD]
        exact or_assoc
      · simp only [removeAuthLoop]
        intro x hx
        exact hIH.2.2.1 x (S.2.2 x hx)
      · simp only [removeAuthLoop]
        intro hns h2 hh2 hneq
        rcases List.mem_cons.mp hh2 with h3 | h3
        · exact absurd h3 hneq
        · exact hIH.2.2.2 hns h2 h3 hneq
    · have hstep : removeAuthStep E W sys ns key h st =
          removeFromCredHelper E ns key h st := by
        unfold removeAuthStep
        rw [if_neg hf]
      have S1 := rfch_multiErr E ns key h st
      have S2 := rfch_loggedIn E ns key h st
      have S3 := rfch_trace E ns key h st
      rw [← hstep] at S1 S2 S3
      have hSE : removeStepErrorsSpec E W sys ns key h ↔
          (ns = false ∧ extEraseFails E key h) := by
        simp [removeStepErrorsSpec, hf]
      have hSD : removeStepDeletesSpec E W sys ns key h ↔
          (ns = false ∧ extEraseSucceeds E key h) := by
        simp [removeStepDeletesSpec, hf]
      refine ⟨?_, ?_, ?_, ?_⟩
      · simp only [removeAuthLoop]
        rw [hIH.1, S1, hAny, hSE, not_or]
        exact and_assoc
      · simp only [removeAuthLoop]
        rw [hIH.2.1, S2, hDel, hSD]
        exact or_assoc
      · simp only [removeAuthLoop]
        intro x hx
        exact hIH.2.2.1 x (S3.1 x hx)
      · simp only [removeAuthLoop]
        intro hns h2 hh2 hneq
        rcases List.mem_cons.mp hh2 with h3 | h3
        · subst h3
          exact hIH.2.2.1 _ (S3.2 hns)
        · exact hIH.2.2.2 hns h2 h3 hneq

/-! ### Claim C6 -/

/-- Claim C6: RemoveAuthentication attempts every helper in the chain without
stopping early (when the key is not namespaced, every external helper receives
an erase call); it returns the aggregated error exactly when some step
errored; otherwise it returns NotLoggedIn exactly when no backend deleted a
credential (a not-found reply from an external helper is non-fatal and does
not count, while a successful erase or the deletion of an existing auths entry
does); and otherwise it succeeds.  The helper list is assumed to name the file
backend at most once; the model does not track the rewritten file across two
file transactions in one call. -/
theorem removeAuthentication_spec (E : ExtHelpers) (W : World)
    (sys : Option SystemContext) (key : GoStr) (ns : Bool) (helpers : List GoStr)
    (hval : validateKey key = .ok ns)
    (hcount : helpers.count authenticationFileHelper ≤ 1) :
    (ns = false → ∀ h ∈ helpers, h ≠ authenticationFileHelper →
      (h, key) ∈ (removeAuthentication E W sys (.ok helpers) key).2) ∧
    ((∃ l, (removeAuthentication E W sys (.ok helpers) key).1 = .error (.multi l)) ↔
      removeAnyErrorSpec E W sys ns key helpers) ∧
    ((removeAuthentication E W sys (.ok helpers) key).1 = .error .notLoggedIn ↔
      (¬removeAnyErrorSpec E W sys ns key helpers ∧
        ¬removeDeletesSpec E W sys ns key helpers)) ∧
    ((removeAuthentication E W sys (.ok helpers) key).1 = .ok () ↔
      (¬removeAnyErrorSpec E W sys ns key helpers ∧
        removeDeletesSpec E W sys ns key helpers)) := by
  have L := removeAuthLoop_spec E W sys ns key helpers ⟨[], false, []⟩
  have L1 : (removeAuthLoop E W sys ns key helpers ⟨[], false, []⟩).multiErr.isEmpty =
      true ↔ ¬removeAnyErrorSpec E W sys ns key helpers := by
    rw [L.1]
    simp
  have L2 : (removeAuthLoop E W sys ns key helpers ⟨[], false, []⟩).isLoggedIn = true ↔
      removeDeletesSpec E W sys ns key helpers := by
    rw [L.2.1]
    simp
  unfold removeAuthentication
  rw [hval]
  dsimp only
  by_cases hAny : removeAnyErrorSpec E W sys ns key helpers
  · have hE : (removeAuthLoop E W sys ns key helpers ⟨[], false, []⟩).multiErr.isEmpty =
        false := by
      cases hcase : (removeAuthLoop E W sys ns key helpers ⟨[], false, []⟩).multiErr.isEmpty
      · rfl
      · exact absurd hAny (by rw [← L1]; exact hcase)
    rw [hE]
    refine ⟨?_, ?_, ?_, ?_⟩
    · intro hns h hh hneq
      exact L.2.2.2 hns h hh hneq
    · simp [hAny]
    · simp [hAny]
    · simp [hAny]
  · have hE : (removeAuthLoop E W sys ns key helpers ⟨[], false, []⟩).multiErr.isEmpty =
        true := L1.mpr hAny
    rw [hE]
    by_cases hDel : removeDeletesSpec E W sys ns key helpers
    · have hL : (removeAuthLoop E W sys ns key helpers ⟨[], false, []⟩).isLoggedIn =
          true := L2.mpr hDel
      rw [hL]
      refine ⟨?_, ?_, ?_, ?_⟩
      · intro hns h hh hneq
        exact L.2.2.2 hns h hh hneq
      · simp [hAny]
      · simp [hAny]
        exact hDel
      · simp [hAny]
        exact hDel
    · have hL : (removeAuthLoop E W sys ns key helpers ⟨[], false, []⟩).isLoggedIn =
          false := by
        cases hcase : (removeAuthLoop E W sys ns key helpers ⟨[], false, []⟩).isLoggedIn
        · rfl
        · exact absurd (L2.mp hcase) hDel
      rw [hL]
      refine ⟨?_, ?_, ?_, ?_⟩
      · intro hns h hh hneq
        exact L.2.2.2 hns h hh hneq
      · simp [hAny]
      · simp [hAny, hDel]
      · simp [hDel]

theorem removeAuthentication_spec_witness :
    (str "h1", str "quay.io") ∈
      (removeAuthentication eraseOkExt sampleWorld (some sampleSys)
        (.ok [str "h1"]) (str "quay.io")).2 :=
  (removeAuthentication_spec eraseOkExt sampleWorld (some sampleSys) (str "quay.io")
    false [str "h1"] rfl (by decide)).1 rfl (str "h1") (by decide) (by decide)

end ImageConfig
